import Mathlib

/-!
# Verification of the abcode binary serialization codec

Shallow embedding of the codec engine of the `abcode` repository
(`src/ser/internal.rs`, `src/ser/public.rs`, `src/de/internal.rs`,
`src/de/public.rs`) and proofs about it.

Modelling conventions:
* Bytes are natural numbers; every byte produced by the embedded code is
  `< 256` by construction (`leBytes` takes residues mod 256, mirroring
  `to_le_bytes`).
* `usize`/`u64` values are natural numbers.  The reference code targets a
  64-bit platform, where `u64::try_from(usize)` in `send_usize` and
  `usize::try_from(u64)` in `recv_usize` never fail, so the `ExcessiveSize`
  error paths of those helpers are dead and the embedding makes the
  corresponding operations total.
* The Rust `Vec<BufferSinkRoutine>` of `parent_routines` is used purely as a
  stack (push/pop at the end); the embedding uses a Lean list with the head
  as the stack top.
* The tokio mpsc byte queue of the streaming sink is modelled by the list of
  bytes successfully delivered to it (`sent`), with the receiver connected,
  which is the configuration exercised by `Config::serialize`.
-/

set_option linter.unusedVariables false

namespace Abcode

/-- `n.to_le_bytes()` for a `w`-byte integer: little-endian bytes, each the
residue of the value mod 256 (exact for `n < 2 ^ (8 * w)`). -/
def leBytes : Nat → Nat → List Nat
| 0, _ => []
| w + 1, n => n % 256 :: leBytes w (n / 256)

/-- `from_le_bytes`: rebuild the integer from little-endian bytes. -/
def fromLeBytes : List Nat → Nat
| [] => 0
| b :: bs => b + 256 * fromLeBytes bs

/-! ## Buffer sink (`src/ser/internal.rs`, `BufferSink`) -/

/-- `BufferSinkRoutine` from `src/ser/internal.rs`: a `Resolved` frame counts
still-open sequences whose length prefix is already written; a `Resolving`
frame remembers the placeholder offset and the running element count. -/
inductive BufferSinkRoutine where
| resolved (seqs : Nat)
| resolving (cursor : Nat) (seq_size : Nat)
deriving DecidableEq, Repr

/-- `BufferSink` from `src/ser/internal.rs`: growable byte buffer, write
cursor, current routine and the stack of parent routines (list head = top). -/
structure BufferSink where
buffer : List Nat
cursor : Nat
current_routine : BufferSinkRoutine
parent_routines : List BufferSinkRoutine
deriving DecidableEq, Repr

/-- `BufferSink::new`. -/
def BufferSink.new : BufferSink :=
  ⟨[], 0, .resolved 0, []⟩

/-- `BufferSink::with_buffer`: adopts the given buffer, cursor at 0. -/
def BufferSink.with_buffer (buf : List Nat) : BufferSink :=
  ⟨buf, 0, .resolved 0, []⟩

/-- `BufferSink::as_slice`. -/
def BufferSink.as_slice (s : BufferSink) : List Nat :=
  s.buffer

/-- `BufferSink::clear`: clears the buffer and resets the cursor (the
routines are left untouched, as in the source). -/
def BufferSink.clear (s : BufferSink) : BufferSink :=
  { s with buffer := [], cursor := 0 }

/-- `BufferSink::send_raw_data`: split `data` at the buffer end; the prefix
overwrites in place at the cursor, the suffix extends the buffer. -/
def BufferSink.send_raw_data (s : BufferSink) (data : List Nat) : BufferSink :=
  let mid := min data.length (s.buffer.length - s.cursor)
  let overriding := data.take mid
  let extending := data.drop mid
  let buf2 := s.buffer.take s.cursor ++ overriding ++ s.buffer.drop (s.cursor + mid)
  if extending.isEmpty then
    { s with buffer := buf2, cursor := s.cursor + mid }
  else
    { s with buffer := buf2 ++ extending, cursor := (buf2 ++ extending).length }

/-- `send_usize` (via `send_u64`): 8 little-endian bytes. -/
def BufferSink.send_usize (s : BufferSink) (n : Nat) : BufferSink :=
  s.send_raw_data (leBytes 8 n)

/-- `send_u32`: 4 little-endian bytes. -/
def BufferSink.send_u32 (s : BufferSink) (n : Nat) : BufferSink :=
  s.send_raw_data (leBytes 4 n)

/-- `send_u8`. -/
def BufferSink.send_u8 (s : BufferSink) (n : Nat) : BufferSink :=
  s.send_raw_data (leBytes 1 n)

/-- `BufferSink::push_resolved`: write the known length, then either bump the
open count of a `Resolved` routine or push the current `Resolving` routine. -/
def BufferSink.push_resolved (s : BufferSink) (len : Nat) : BufferSink :=
  let s1 := s.send_usize len
  match s1.current_routine with
  | .resolved seqs => { s1 with current_routine := .resolved (seqs + 1) }
  | .resolving _ _ =>
    { s1 with
      parent_routines := s1.current_routine :: s1.parent_routines,
      current_routine := .resolved 1 }

/-- `BufferSink::push_resolving`: push the current routine unless it is the
idle `Resolved { seqs: 0 }`, start a `Resolving` routine at the current
cursor, then write the 8-byte zero placeholder. -/
def BufferSink.push_resolving (s : BufferSink) : BufferSink :=
  let s1 :=
    if s.current_routine = .resolved 0 then s
    else { s with parent_routines := s.current_routine :: s.parent_routines }
  let s2 := { s1 with current_routine := .resolving s1.cursor 0 }
  s2.send_usize 0

/-- `BufferSink::push`. -/
def BufferSink.push (s : BufferSink) (size : Option Nat) : BufferSink :=
  match size with
  | some len => s.push_resolved len
  | none => s.push_resolving

/-- `BufferSink::pop`: close the innermost variable-sized container; a
`Resolving` routine back-patches its placeholder with the final count. -/
def BufferSink.pop (s : BufferSink) : BufferSink :=
  match s.current_routine with
  | .resolved 1 =>
    match s.parent_routines with
    | r :: rest => { s with current_routine := r, parent_routines := rest }
    | [] => { s with current_routine := .resolved 0 }
  | .resolved seqs =>
    { s with current_routine := .resolved (seqs - 1) }
  | .resolving cur seq_size =>
    let s1 :=
      match s.parent_routines with
      | r :: rest => { s with current_routine := r, parent_routines := rest }
      | [] => { s with current_routine := .resolved 0 }
    let previous_cursor := s1.cursor
    let s2 := { s1 with cursor := cur }
    let s3 := s2.send_usize seq_size
    { s3 with cursor := previous_cursor }

/-- `BufferSink::inc_size`. -/
def BufferSink.inc_size (s : BufferSink) : BufferSink :=
  match s.current_routine with
  | .resolving cur seq_size =>
    { s with current_routine := .resolving cur (seq_size + 1) }
  | _ => s

/-- `start_var_sized` of the `SerializationSink` impl for `BufferSink`. -/
def BufferSink.start_var_sized (s : BufferSink) (size : Option Nat) : BufferSink :=
  s.push size

/-- `end_var_sized` of the `SerializationSink` impl for `BufferSink`. -/
def BufferSink.end_var_sized (s : BufferSink) : BufferSink :=
  s.pop

/-- `advance_var_sized` of the `SerializationSink` impl for `BufferSink`. -/
def BufferSink.advance_var_sized (s : BufferSink) : BufferSink :=
  s.inc_size

/-! ## Sink operation traces

A trace of `SerializationSink` calls; the serializer is embedded as the
trace of sink calls it makes (`Serializer` in `src/ser/internal.rs`
translates each serde event into these calls). -/

/-- One `SerializationSink` call. -/
inductive Op where
| raw (data : List Nat)
| startVar (size : Option Nat)
| advanceVar
| endVar
deriving DecidableEq, Repr

/-- Dispatch one sink call to `BufferSink`. -/
def BufferSink.applyOp (s : BufferSink) : Op → BufferSink
| .raw data => s.send_raw_data data
| .startVar size => s.start_var_sized size
| .advanceVar => s.advance_var_sized
| .endVar => s.end_var_sized

/-- Run a trace of sink calls on a `BufferSink`. -/
def runOps (s : BufferSink) : List Op → BufferSink
| [] => s
| op :: rest => runOps (s.applyOp op) rest

/-- The bytes a trace appends when run on an appending `BufferSink` with no
unknown-length containers: raw data plus the 8-byte prefix of each
known-length `start_var_sized`. -/
def flatBytes : List Op → List Nat
| [] => []
| .raw data :: r => data ++ flatBytes r
| .startVar (some n) :: r => leBytes 8 n ++ flatBytes r
| .startVar none :: r => leBytes 8 0 ++ flatBytes r
| .advanceVar :: r => flatBytes r
| .endVar :: r => flatBytes r

/-- A trace with no unknown-length `start_var_sized`. -/
def noStartNone : List Op → Bool
| [] => true
| .startVar none :: _ => false
| _ :: r => noStartNone r

/-- Scan a trace from nesting depth `d`: returns `(final depth, number of
`advance_var_sized` calls made at depth 0)` or `none` if some
`end_var_sized` occurs at depth 0. -/
def opsScan : Nat → List Op → Option (Nat × Nat)
| d, [] => some (d, 0)
| d, .raw _ :: r => opsScan d r
| d, .startVar _ :: r => opsScan (d + 1) r
| 0, .advanceVar :: r => (opsScan 0 r).map (fun p => (p.1, p.2 + 1))
| d + 1, .advanceVar :: r => opsScan (d + 1) r
| 0, .endVar :: _ => none
| d + 1, .endVar :: r => opsScan d r

/-- A balanced trace: starts and ends match, never closing a container that
was open before the trace began. -/
def balancedOps (ops : List Op) : Bool :=
  match opsScan 0 ops with
  | some (0, _) => true
  | _ => false

/-- A well-formed element trace: balanced, and every `advance_var_sized` is
inside one of its own containers (serde serializers only advance between a
sequence start and end). -/
def elemOps (ops : List Op) : Bool :=
  opsScan 0 ops = some (0, 0)

/-- The trace the serializer emits for a sequence of elements:
`start_var_sized hint`, then per element `advance_var_sized` followed by the
element's own trace, then `end_var_sized` (`SerializeSeq` impl in
`src/ser/internal.rs`). -/
def seqOps (hint : Option Nat) (elems : List (List Op)) : List Op :=
  Op.startVar hint :: (elems.map (fun e => Op.advanceVar :: e)).flatten ++ [Op.endVar]

/-! ## Abstract view of the routine stack

`Resolved { seqs }` stands for `seqs` nested already-resolved scopes;
`Resolving` for one pending scope.  Expanding the current routine and the
parents into a single list of unit frames gives a clean stack the
operations act on uniformly. -/

/-- One open variable-sized scope: `res`olved (length already written) or
`pend`ing (placeholder at `pos`, `count` elements so far). -/
inductive AbsFrame where
| res
| pend (pos : Nat) (count : Nat)
deriving DecidableEq, Repr

/-- Expansion of a routine into unit scopes. -/
def expandRoutine : BufferSinkRoutine → List AbsFrame
| .resolved s => List.replicate s .res
| .resolving c n => [.pend c n]

/-- The sink's abstract stack of open scopes (head = innermost). -/
def BufferSink.stack (s : BufferSink) : List AbsFrame :=
  expandRoutine s.current_routine ++ (s.parent_routines.map expandRoutine).flatten

/-- Structural invariant of the routine machinery: the idle routine
`Resolved { seqs: 0 }` occurs only as the current routine of an empty stack
and is never pushed onto `parent_routines`. -/
def GoodStack (s : BufferSink) : Prop :=
  (s.current_routine = .resolved 0 → s.parent_routines = []) ∧
  ∀ r ∈ s.parent_routines, r ≠ .resolved 0

/-- Abstract effect of `advance_var_sized` on the scope stack. -/
def incTop : List AbsFrame → List AbsFrame
| .pend q c :: t => .pend q (c + 1) :: t
| t => t

/-! ## Streaming sink (`src/ser/internal.rs`, `ChannelSink`) -/

/-- `ChannelSinkMultiplexing`. -/
inductive ChannelSinkMultiplexing where
| channel
| buffer (outer_seq_size : Nat) (inner_seqs : Nat)
deriving DecidableEq, Repr

/-- `ChannelSink`: `sent` is the byte stream delivered to the queue (the
receiver stays connected, so `blocking_send` always succeeds). -/
structure ChannelSink where
sent : List Nat
fallback_buffer : BufferSink
multiplexing : ChannelSinkMultiplexing
deriving DecidableEq, Repr

/-- `ChannelSink::new`. -/
def ChannelSink.new : ChannelSink :=
  ⟨[], BufferSink.new, .channel⟩

/-- `send_raw_data` for `ChannelSink`: in `Channel` mode bytes go to the
queue one by one; in `Buffer` mode they go to the fallback buffer sink. -/
def ChannelSink.send_raw_data (s : ChannelSink) (data : List Nat) : ChannelSink :=
  match s.multiplexing with
  | .channel => { s with sent := s.sent ++ data }
  | .buffer _ _ => { s with fallback_buffer := s.fallback_buffer.send_raw_data data }

/-- `send_usize` for `ChannelSink` (trait default method: dispatches through
`ChannelSink::send_raw_data`, hence through the current multiplexing). -/
def ChannelSink.send_usize (s : ChannelSink) (n : Nat) : ChannelSink :=
  s.send_raw_data (leBytes 8 n)

/-- `start_var_sized` for `ChannelSink`. -/
def ChannelSink.start_var_sized (s : ChannelSink) (size : Option Nat) : ChannelSink :=
  match s.multiplexing, size with
  | .channel, some known_len => s.send_usize known_len
  | .channel, none => { s with multiplexing := .buffer 0 0 }
  | .buffer outer inner, _ =>
    { s with
      fallback_buffer := s.fallback_buffer.start_var_sized size,
      multiplexing := .buffer outer (inner + 1) }

/-- `end_var_sized` for `ChannelSink`, exactly as in the source: at depth 0
it calls `self.send_usize(outer_seq_size)` (which dispatches through the
still-`Buffer` multiplexing), then streams the fallback buffer to the queue
and clears it, leaving the multiplexing unchanged. -/
def ChannelSink.end_var_sized (s : ChannelSink) : ChannelSink :=
  match s.multiplexing with
  | .channel => s
  | .buffer outer 0 =>
    let s1 := s.send_usize outer
    let s2 := { s1 with sent := s1.sent ++ s1.fallback_buffer.as_slice }
    { s2 with fallback_buffer := s2.fallback_buffer.clear }
  | .buffer outer (inner + 1) =>
    { s with
      fallback_buffer := s.fallback_buffer.end_var_sized,
      multiplexing := .buffer outer inner }

/-- `advance_var_sized` for `ChannelSink`. -/
def ChannelSink.advance_var_sized (s : ChannelSink) : ChannelSink :=
  match s.multiplexing with
  | .buffer outer 0 => { s with multiplexing := .buffer (outer + 1) 0 }
  | _ => s

/-- Dispatch one sink call to `ChannelSink`. -/
def ChannelSink.applyOp (s : ChannelSink) : Op → ChannelSink
| .raw data => s.send_raw_data data
| .startVar size => s.start_var_sized size
| .advanceVar => s.advance_var_sized
| .endVar => s.end_var_sized

/-- Run a trace of sink calls on a `ChannelSink`. -/
def runChannelOps (s : ChannelSink) : List Op → ChannelSink
| [] => s
| op :: rest => runChannelOps (s.applyOp op) rest

/-! ## Deserialization sources (`src/de/internal.rs`) -/

/-- The error type of `src/de/public.rs` (payloads kept where claims need
them). -/
inductive DeError where
| unsupportedAny
| prematureEof
| expectedEof (found : Nat)
| disconnected
| excessiveSize (bits : Nat)
| excessiveSizeDiff (bits : Int)
| invalidCodePoint (code : Nat)
| utf8
| ioError
| custom
deriving DecidableEq, Repr

/-- `BufferSource`: byte slice plus read cursor. -/
structure BufferSource where
buffer : List Nat
cursor : Nat
deriving DecidableEq, Repr

/-- `BufferSource::new`. -/
def BufferSource.new (buf : List Nat) : BufferSource :=
  ⟨buf, 0⟩

/-- `BufferSource::recv_raw_data`: fill the request exactly from
`buffer[cursor .. cursor + n]`, or fail with `PrematureEof` without
consuming anything (the cursor is only advanced on success). -/
def BufferSource.recv_raw_data (src : BufferSource) (n : Nat) :
    Except DeError (List Nat × BufferSource) :=
  if src.cursor + n ≤ src.buffer.length then
    .ok ((src.buffer.drop src.cursor).take n, ⟨src.buffer, src.cursor + n⟩)
  else
    .error .prematureEof

/-- `BufferSource::ensure_eof`. -/
def BufferSource.ensure_eof (src : BufferSource) : Except DeError Unit :=
  match src.buffer.get? src.cursor with
  | none => .ok ()
  | some found => .error (.expectedEof found)

/-- `ChannelSource`: `request_open` tells whether the request queue's
receiver is still alive; `responses` is the stream of payloads the backend
will deliver (empty = response channel closed). -/
structure ChannelSource where
request_open : Bool
responses : List (List Nat)
deriving DecidableEq, Repr

/-- `ChannelSource::recv_raw_data`: send the pull request (fails with
`PrematureEof` if the request queue is disconnected), then receive the
payload (fails with `PrematureEof` if the response queue is closed).  A
payload of the wrong length makes `copy_from_slice` panic in Rust; the
backend always answers with exactly the requested length, so that branch is
unreachable in composed use and is modelled as an error. -/
def ChannelSource.recv_raw_data (src : ChannelSource) (n : Nat) :
    Except DeError (List Nat × ChannelSource) :=
  if src.request_open then
    match src.responses with
    | [] => .error .prematureEof
    | r :: rest =>
      if r.length = n then .ok (r, ⟨src.request_open, rest⟩)
      else .error .custom
  else
    .error .prematureEof

/-! ## Read backend fill loop (`src/de/internal.rs`, `ChannelBackend::run`)

The per-request fill loop reads from the async device until the request is
filled.  The device is modelled by the sizes of the chunks its successive
`read` calls return (`reads i` bytes on the `i`-th call, clipped to the
space left, as the `AsyncRead` contract requires); `fuel` bounds the number
of iterations observed, so non-termination is expressed as running out of
any amount of fuel. -/

/-- Outcome of observing the fill loop for a bounded number of iterations. -/
inductive FillResult where
| done
| failed (e : DeError)
| outOfFuel
deriving DecidableEq, Repr

/-- The fill loop body of `ChannelBackend::run`: while the request is not
filled, read; with `hard_eof` a zero-length read fails with `PrematureEof`,
otherwise it just leaves the request unfilled. -/
def fillLoop (hard_eof : Bool) (reads : Nat → Nat) :
    Nat → Nat → Nat → FillResult
| _, remaining, 0 =>
  if remaining = 0 then .done else .outOfFuel
| call, remaining, fuel + 1 =>
  if remaining = 0 then .done
  else
    let count := min (reads call) remaining
    if hard_eof ∧ count = 0 then .failed .prematureEof
    else fillLoop hard_eof reads (call + 1) (remaining - count) fuel

/-! ## Value shapes and values

The decoder is schema-driven: `Shape` is the static description of the
target type (what the serde `Deserialize` impl of the target communicates
through its `deserialize_*` calls), `Val` the decoded value.  Fixed-width
primitives (integers of 8/16/32/64/128 bits, floats as their bit patterns,
bool as its 0/1 byte, the 64-bit-normalized platform integers) are all
`prim width`: the codec moves their little-endian bytes verbatim.  Maps are
entry lists in iteration order.  A sum variant is its 0-based ordinal plus
its payload field list (empty for unit variants). -/

mutual
inductive Shape where
| sprim (width : Nat)
| schar
| sbytes
| sstr
| sopt (inner : Shape)
| sunit
| sseq (elem : Shape)
| stup (fields : ShapeList)
| smap (key value : Shape)
| ssum (variants : VariantList)
deriving DecidableEq, Repr

inductive ShapeList where
| nil
| cons (head : Shape) (tail : ShapeList)
deriving DecidableEq, Repr

inductive VariantList where
| nil
| cons (fields : ShapeList) (tail : VariantList)
deriving DecidableEq, Repr
end

mutual
inductive Val where
| vprim (width bits : Nat)
| vchar (code : Nat)
| vbytes (bytes : List Nat)
| vstr (bytes : List Nat)
| vnone
| vsome (inner : Val)
| vunit
| vseq (items : ValList)
| vtup (items : ValList)
| vmap (entries : EntryList)
| vvariant (idx : Nat) (fields : ValList)
deriving DecidableEq, Repr

inductive ValList where
| nil
| cons (head : Val) (tail : ValList)
deriving DecidableEq, Repr

inductive EntryList where
| nil
| cons (key value : Val) (tail : EntryList)
deriving DecidableEq, Repr
end

/-- Number of items. -/
def ValList.length : ValList → Nat
| .nil => 0
| .cons _ vs => vs.length + 1

/-- Number of entries. -/
def EntryList.length : EntryList → Nat
| .nil => 0
| .cons _ _ es => es.length + 1

/-- Variant lookup by 0-based ordinal. -/
def variantGet : VariantList → Nat → Option ShapeList
| .nil, _ => none
| .cons fs _, 0 => some fs
| .cons _ rest, n + 1 => variantGet rest n

/-- `char::try_from(u32)` succeeds exactly on Unicode scalar values. -/
def isScalar (c : Nat) : Bool :=
  c < 0xD800 || (0xE000 ≤ c && c < 0x110000)

/-- A UTF-8 continuation byte. -/
def isCont (b : Nat) : Bool :=
  0x80 ≤ b && b ≤ 0xBF

/-- `String::from_utf8` validity (RFC 3629: no overlong forms, no
surrogates, maximum U+10FFFF). -/
def utf8Valid : List Nat → Bool
| [] => true
| b :: rest =>
  if b ≤ 0x7F then utf8Valid rest
  else if 0xC2 ≤ b && b ≤ 0xDF then
    match rest with
    | b1 :: r => isCont b1 && utf8Valid r
    | [] => false
  else if b = 0xE0 then
    match rest with
    | b1 :: b2 :: r => (0xA0 ≤ b1 && b1 ≤ 0xBF) && isCont b2 && utf8Valid r
    | _ => false
  else if (0xE1 ≤ b && b ≤ 0xEC) || b = 0xEE || b = 0xEF then
    match rest with
    | b1 :: b2 :: r => isCont b1 && isCont b2 && utf8Valid r
    | _ => false
  else if b = 0xED then
    match rest with
    | b1 :: b2 :: r => (0x80 ≤ b1 && b1 ≤ 0x9F) && isCont b2 && utf8Valid r
    | _ => false
  else if b = 0xF0 then
    match rest with
    | b1 :: b2 :: b3 :: r =>
      (0x90 ≤ b1 && b1 ≤ 0xBF) && isCont b2 && isCont b3 && utf8Valid r
    | _ => false
  else if 0xF1 ≤ b && b ≤ 0xF3 then
    match rest with
    | b1 :: b2 :: b3 :: r => isCont b1 && isCont b2 && isCont b3 && utf8Valid r
    | _ => false
  else if b = 0xF4 then
    match rest with
    | b1 :: b2 :: b3 :: r =>
      (0x80 ≤ b1 && b1 ≤ 0x8F) && isCont b2 && isCont b3 && utf8Valid r
    | _ => false
  else false
termination_by l => l.length
decreasing_by all_goals simp <;> omega

mutual
/-- `v` is a well-formed inhabitant of shape `s`: the conformance relation
plus the range facts the Rust types guarantee (primitive values fit their
width, `char`s are scalar values, strings are valid UTF-8, lengths fit in
`u64`, variant ordinals fit in `u32` and are in range, bytes are bytes). -/
def good : Shape → Val → Bool
| .sprim w, .vprim w2 bits => w == w2 && decide (bits < 2 ^ (8 * w))
| .schar, .vchar c => isScalar c
| .sbytes, .vbytes bs => decide (bs.length < 2 ^ 64) && bs.all (· < 256)
| .sstr, .vstr bs => decide (bs.length < 2 ^ 64) && utf8Valid bs
| .sopt _, .vnone => true
| .sopt s, .vsome v => good s v
| .sunit, .vunit => true
| .sseq s, .vseq vs => decide (vs.length < 2 ^ 64) && goodList s vs
| .stup ss, .vtup vs => goodFields ss vs
| .smap k v, .vmap es => decide (es.length < 2 ^ 64) && goodEntries k v es
| .ssum vars, .vvariant i fs =>
  decide (i < 2 ^ 32) &&
    (match variantGet vars i with
     | some fss => goodFields fss fs
     | none => false)
| _, _ => false

def goodList : Shape → ValList → Bool
| _, .nil => true
| s, .cons v vs => good s v && goodList s vs

def goodFields : ShapeList → ValList → Bool
| .nil, .nil => true
| .cons s ss, .cons v vs => good s v && goodFields ss vs
| _, _ => false

def goodEntries : Shape → Shape → EntryList → Bool
| _, _, .nil => true
| k, v, .cons kv vv es => good k kv && good v vv && goodEntries k v es
end

/-! ## The encoder

`Serializer` (`src/ser/internal.rs`) reacts to each serde event with sink
calls; `emit` is that trace.  `encodeVal` is the flat byte string the trace
produces on an appending buffer sink (proved below). -/

mutual
/-- Sink-call trace of `value.serialize(&mut Serializer::new(sink))`. -/
def emit : Val → List Op
| .vprim w bits => [.raw (leBytes w bits)]
| .vchar c => [.raw (leBytes 4 c)]
| .vbytes bs => [.raw (leBytes 8 bs.length), .raw bs]
| .vstr bs => [.raw (leBytes 8 bs.length), .raw bs]
| .vnone => [.raw (leBytes 1 0)]
| .vsome v => .raw (leBytes 1 1) :: emit v
| .vunit => []
| .vseq vs => .startVar (some vs.length) :: emitSeqItems vs ++ [.endVar]
| .vtup vs => emitFields vs
| .vmap es => .startVar (some es.length) :: emitEntries es ++ [.endVar]
| .vvariant i fs => .raw (leBytes 4 i) :: emitFields fs

/-- `SerializeSeq`: per element `advance_var_sized`, then the element. -/
def emitSeqItems : ValList → List Op
| .nil => []
| .cons v vs => .advanceVar :: emit v ++ emitSeqItems vs

/-- Tuple/struct/variant fields: concatenated, no framing. -/
def emitFields : ValList → List Op
| .nil => []
| .cons v vs => emit v ++ emitFields vs

/-- `SerializeMap`: per entry `advance_var_sized`, key, then value. -/
def emitEntries : EntryList → List Op
| .nil => []
| .cons k v es => .advanceVar :: (emit k ++ emit v ++ emitEntries es)
end

mutual
/-- Wire bytes of a value. -/
def encodeVal : Val → List Nat
| .vprim w bits => leBytes w bits
| .vchar c => leBytes 4 c
| .vbytes bs => leBytes 8 bs.length ++ bs
| .vstr bs => leBytes 8 bs.length ++ bs
| .vnone => leBytes 1 0
| .vsome v => leBytes 1 1 ++ encodeVal v
| .vunit => []
| .vseq vs => leBytes 8 vs.length ++ encodeList vs
| .vtup vs => encodeList vs
| .vmap es => leBytes 8 es.length ++ encodeEntries es
| .vvariant i fs => leBytes 4 i ++ encodeList fs

/-- Wire bytes of consecutive items. -/
def encodeList : ValList → List Nat
| .nil => []
| .cons v vs => encodeVal v ++ encodeList vs

/-- Wire bytes of consecutive key/value entries. -/
def encodeEntries : EntryList → List Nat
| .nil => []
| .cons k v es => encodeVal k ++ encodeVal v ++ encodeEntries es
end

/-! ## The decoder

`Deserializer` (`src/de/internal.rs`) driven by the target shape.  Sequences
and maps read the 64-bit length and then exactly that many elements
(`ProductAccess`); sums read the 32-bit discriminator and dispatch
(`SumAccess`), failing on an out-of-range ordinal (serde's invalid-variant
error, a `Custom` error). -/

mutual
def decodeVal : Shape → BufferSource → Except DeError (Val × BufferSource)
| .sprim w, src =>
  match src.recv_raw_data w with
  | .error e => .error e
  | .ok (bs, src) => .ok (.vprim w (fromLeBytes bs), src)
| .schar, src =>
  match src.recv_raw_data 4 with
  | .error e => .error e
  | .ok (bs, src) =>
    let code := fromLeBytes bs
    if isScalar code then .ok (.vchar code, src)
    else .error (.invalidCodePoint code)
| .sbytes, src =>
  match src.recv_raw_data 8 with
  | .error e => .error e
  | .ok (lb, src) =>
    match src.recv_raw_data (fromLeBytes lb) with
    | .error e => .error e
    | .ok (bs, src) => .ok (.vbytes bs, src)
| .sstr, src =>
  match src.recv_raw_data 8 with
  | .error e => .error e
  | .ok (lb, src) =>
    match src.recv_raw_data (fromLeBytes lb) with
    | .error e => .error e
    | .ok (bs, src) =>
      if utf8Valid bs then .ok (.vstr bs, src) else .error .utf8
| .sopt s, src =>
  match src.recv_raw_data 1 with
  | .error e => .error e
  | .ok (tb, src) =>
    if fromLeBytes tb = 0 then .ok (.vnone, src)
    else
      match decodeVal s src with
      | .error e => .error e
      | .ok (v, src) => .ok (.vsome v, src)
| .sunit, src => .ok (.vunit, src)
| .sseq s, src =>
  match src.recv_raw_data 8 with
  | .error e => .error e
  | .ok (lb, src) =>
    match decodeList s (fromLeBytes lb) src with
    | .error e => .error e
    | .ok (vs, src) => .ok (.vseq vs, src)
| .stup ss, src =>
  match decodeFields ss src with
  | .error e => .error e
  | .ok (vs, src) => .ok (.vtup vs, src)
| .smap k v, src =>
  match src.recv_raw_data 8 with
  | .error e => .error e
  | .ok (lb, src) =>
    match decodeEntries k v (fromLeBytes lb) src with
    | .error e => .error e
    | .ok (es, src) => .ok (.vmap es, src)
| .ssum vars, src =>
  match src.recv_raw_data 4 with
  | .error e => .error e
  | .ok (tb, src) =>
    match decodeVariant vars (fromLeBytes tb) src with
    | .error e => .error e
    | .ok (fs, src) => .ok (.vvariant (fromLeBytes tb) fs, src)
termination_by s _ => (sizeOf s, 1)
decreasing_by all_goals (simp_wf; omega)

def decodeList : Shape → Nat → BufferSource → Except DeError (ValList × BufferSource)
| _, 0, src => .ok (.nil, src)
| s, n + 1, src =>
  match decodeVal s src with
  | .error e => .error e
  | .ok (v, src) =>
    match decodeList s n src with
    | .error e => .error e
    | .ok (vs, src) => .ok (.cons v vs, src)
termination_by s n _ => (sizeOf s, n + 2)
decreasing_by all_goals (simp_wf; omega)

def decodeFields : ShapeList → BufferSource → Except DeError (ValList × BufferSource)
| .nil, src => .ok (.nil, src)
| .cons s ss, src =>
  match decodeVal s src with
  | .error e => .error e
  | .ok (v, src) =>
    match decodeFields ss src with
    | .error e => .error e
    | .ok (vs, src) => .ok (.cons v vs, src)
termination_by ss _ => (sizeOf ss, 1)
decreasing_by all_goals (simp_wf; omega)

def decodeEntries : Shape → Shape → Nat → BufferSource →
    Except DeError (EntryList × BufferSource)
| _, _, 0, src => .ok (.nil, src)
| k, v, n + 1, src =>
  match decodeVal k src with
  | .error e => .error e
  | .ok (kv, src) =>
    match decodeVal v src with
    | .error e => .error e
    | .ok (vv, src) =>
      match decodeEntries k v n src with
      | .error e => .error e
      | .ok (es, src) => .ok (.cons kv vv es, src)
termination_by k v n _ => (sizeOf k + sizeOf v, n + 2)
decreasing_by all_goals (simp_wf; omega)

def decodeVariant : VariantList → Nat → BufferSource →
    Except DeError (ValList × BufferSource)
| .nil, _, _ => .error .custom
| .cons fs _, 0, src => decodeFields fs src
| .cons _ rest, i + 1, src => decodeVariant rest i src
termination_by vars _ _ => (sizeOf vars, 1)
decreasing_by all_goals (simp_wf; omega)
end

/-- `Config::deserialize_buffer` (`src/de/public.rs`): decode, then with
`hard_eof` require the cursor to have reached the end. -/
def deserializeBuffer (hard_eof : Bool) (s : Shape) (buf : List Nat) :
    Except DeError Val :=
  match decodeVal s (BufferSource.new buf) with
  | .error e => .error e
  | .ok (v, src) =>
    if hard_eof then
      match src.ensure_eof with
      | .error e => .error e
      | .ok _ => .ok v
    else .ok v

/-! ## Proof infrastructure -/

/-- A reader `f` consumes exactly `bytes` and produces `a`, wherever those
bytes sit in the buffer. -/
def DecSpec {α : Type} (f : BufferSource → Except DeError (α × BufferSource))
    (bytes : List Nat) (a : α) : Prop :=
  ∀ pre rest, f ⟨pre ++ (bytes ++ rest), pre.length⟩ =
    .ok (a, ⟨pre ++ (bytes ++ rest), pre.length + bytes.length⟩)

/-- Simulation relation between the known-length run (`sk`) and the
unknown-length run (`su`) of the same element traces: the buffers agree
except in the 8-byte window at `p`, where `sk` holds the final length `n`
and `su` still holds the placeholder; the scope stacks share the part `up`
opened inside the traces, sitting on `.res` (known) respectively
`.pend p a` (unknown, `a` elements counted so far) over the common context
`ctxE`. -/
structure KU (p n a : Nat) (up ctxE : List AbsFrame) (sk su : BufferSink) : Prop where
  gk : GoodStack sk
  gu : GoodStack su
  stk : sk.stack = up ++ .res :: ctxE
  stu : su.stack = up ++ .pend p a :: ctxE
  cur : su.cursor = sk.cursor
  len : su.buffer.length = sk.buffer.length
  win : sk.buffer = su.buffer.take p ++ leBytes 8 n ++ su.buffer.drop (p + 8)
  plen : p + 8 ≤ su.buffer.length
  pcur : p + 8 ≤ sk.cursor
  clen : sk.cursor ≤ sk.buffer.length
  pok : ∀ q c, AbsFrame.pend q c ∈ up → p + 8 ≤ q ∧ q + 8 ≤ su.buffer.length

/-! # Lemmas -/

/-! ## Little-endian bytes -/

@[simp]
theorem leBytes_length (w n : Nat) : (leBytes w n).length = w := by
  induction w generalizing n with
  | zero => rfl
  | succ w ih => simp [leBytes, ih]

theorem fromLeBytes_leBytes {w n : Nat} (h : n < 2 ^ (8 * w)) :
    fromLeBytes (leBytes w n) = n := by
  induction w generalizing n with
  | zero =>
    simp [leBytes, fromLeBytes]
    omega
  | succ w ih =>
    have hdiv : n / 256 < 2 ^ (8 * w) := by
      rw [Nat.div_lt_iff_lt_mul (by norm_num : (0:Nat) < 256)]
      calc n < 2 ^ (8 * (w + 1)) := h
      _ = 2 ^ (8 * w) * 256 := by ring
    simp [leBytes, fromLeBytes, ih hdiv]
    omega

/-! ## `send_raw_data` characterization -/

/-- The `write_raw` splice: with the cursor inside the buffer, the result
replaces the bytes from the cursor with `data` (overwriting up to the old
end, appending past it) and advances the cursor by `data.length`. -/
theorem send_raw_data_spec (s : BufferSink) (data : List Nat)
    (h : s.cursor ≤ s.buffer.length) :
    s.send_raw_data data =
      ⟨s.buffer.take s.cursor ++ data ++ s.buffer.drop (s.cursor + data.length),
       s.cursor + data.length, s.current_routine, s.parent_routines⟩ := by
  unfold BufferSink.send_raw_data
  by_cases hsplit : data.length ≤ s.buffer.length - s.cursor
  · have hmid : min data.length (s.buffer.length - s.cursor) = data.length :=
      Nat.min_eq_left hsplit
    simp only [hmid, List.drop_of_length_le (Nat.le_refl _)]
    rw [if_pos (by simp [List.isEmpty_iff])]
    simp [List.take_length]
  · have hmid : min data.length (s.buffer.length - s.cursor) =
        s.buffer.length - s.cursor := Nat.min_eq_right (by omega)
    have hne : ¬(data.drop (s.buffer.length - s.cursor)).isEmpty := by
      simp [List.isEmpty_iff, ← List.length_eq_zero]
      omega
    simp only [hmid]
    rw [if_neg hne]
    have hdropbuf : s.buffer.drop (s.cursor + (s.buffer.length - s.cursor)) = [] :=
      List.drop_eq_nil_of_le (by omega)
    have hdropdata : s.buffer.drop (s.cursor + data.length) = [] :=
      List.drop_eq_nil_of_le (by omega)
    have htl : (s.buffer.take s.cursor).length = s.cursor := by
      simp [List.length_take]
      omega
    congr 1
    · rw [hdropbuf, hdropdata]
      simp [List.append_assoc, List.take_append_drop]
    · simp [List.length_take, List.length_drop]
      omega

/-- Cursor after `write_raw`. -/
theorem send_raw_data_cursor (s : BufferSink) (data : List Nat)
    (h : s.cursor ≤ s.buffer.length) :
    (s.send_raw_data data).cursor = s.cursor + data.length := by
  rw [send_raw_data_spec s data h]

/-- Buffer length after `write_raw`. -/
theorem send_raw_data_length (s : BufferSink) (data : List Nat)
    (h : s.cursor ≤ s.buffer.length) :
    (s.send_raw_data data).buffer.length =
      max s.buffer.length (s.cursor + data.length) := by
  rw [send_raw_data_spec s data h]
  simp [List.length_take, List.length_drop]
  omega

/-- `write_raw` keeps the routines. -/
theorem send_raw_data_routines (s : BufferSink) (data : List Nat) :
    (s.send_raw_data data).current_routine = s.current_routine ∧
    (s.send_raw_data data).parent_routines = s.parent_routines := by
  unfold BufferSink.send_raw_data
  by_cases hemp : (data.drop (min data.length (s.buffer.length - s.cursor))).isEmpty <;>
    simp [hemp]

/-- Appending `write_raw`: with the cursor at the end the data is appended
and the cursor lands at the new end. -/
theorem send_raw_data_append (s : BufferSink) (data : List Nat)
    (h : s.cursor = s.buffer.length) :
    s.send_raw_data data =
      ⟨s.buffer ++ data, s.buffer.length + data.length,
       s.current_routine, s.parent_routines⟩ := by
  rw [send_raw_data_spec s data (by omega)]
  rw [h]
  simp [List.take_length, List.drop_eq_nil_of_le]

/-! ## Routine stack abstraction -/

theorem stack_of_routines {s t : BufferSink}
    (hc : s.current_routine = t.current_routine)
    (hp : s.parent_routines = t.parent_routines) : s.stack = t.stack := by
  unfold BufferSink.stack
  rw [hc, hp]

theorem good_of_routines {s t : BufferSink}
    (hc : s.current_routine = t.current_routine)
    (hp : s.parent_routines = t.parent_routines) (h : GoodStack s) :
    GoodStack t := by
  unfold GoodStack at h ⊢
  rw [← hc, ← hp]
  exact h

theorem send_raw_data_stack (s : BufferSink) (data : List Nat) :
    (s.send_raw_data data).stack = s.stack :=
  stack_of_routines (send_raw_data_routines s data).1 (send_raw_data_routines s data).2

theorem send_raw_data_good {s : BufferSink} (data : List Nat) (h : GoodStack s) :
    GoodStack (s.send_raw_data data) :=
  good_of_routines (send_raw_data_routines s data).1.symm
    (send_raw_data_routines s data).2.symm h

/-- `push_resolved` writes via `send_usize` and opens one resolved scope. -/
theorem push_resolved_fields (s : BufferSink) (n : Nat) :
    (s.push_resolved n).buffer = (s.send_usize n).buffer ∧
    (s.push_resolved n).cursor = (s.send_usize n).cursor := by
  unfold BufferSink.push_resolved
  cases h : (s.send_usize n).current_routine <;> simp [h]

theorem push_resolved_stack (s : BufferSink) (n : Nat) :
    (s.push_resolved n).stack = .res :: s.stack := by
  have hr1 : (s.send_usize n).current_routine = s.current_routine :=
    (send_raw_data_routines s (leBytes 8 n)).1
  have hr2 : (s.send_usize n).parent_routines = s.parent_routines :=
    (send_raw_data_routines s (leBytes 8 n)).2
  unfold BufferSink.push_resolved
  cases h : (s.send_usize n).current_routine with
  | resolved k =>
    have hsc : s.current_routine = .resolved k := by rw [← hr1]; exact h
    simp only [h]
    simp [BufferSink.stack, hr2, hsc, expandRoutine, List.replicate_succ]
  | resolving c m =>
    have hsc : s.current_routine = .resolving c m := by rw [← hr1]; exact h
    simp only [h]
    simp [BufferSink.stack, h, hr2, hsc, expandRoutine]

theorem push_resolved_good {s : BufferSink} (n : Nat) (h : GoodStack s) :
    GoodStack (s.push_resolved n) := by
  have hr1 : (s.send_usize n).current_routine = s.current_routine :=
    (send_raw_data_routines s (leBytes 8 n)).1
  have hr2 : (s.send_usize n).parent_routines = s.parent_routines :=
    (send_raw_data_routines s (leBytes 8 n)).2
  unfold BufferSink.push_resolved
  cases hc : (s.send_usize n).current_routine with
  | resolved k =>
    simp only [hc]
    refine ⟨by simp, ?_⟩
    intro r hm
    simp [hr2] at hm
    exact h.2 r hm
  | resolving c m =>
    simp only [hc]
    refine ⟨by simp, ?_⟩
    intro r hm
    simp [hc, hr2] at hm
    rcases hm with hm | hm
    · rw [hm]; simp
    · exact h.2 r hm

/-- `write_raw` keeps the routines (projection form). -/
@[simp]
theorem send_raw_data_current (s : BufferSink) (data : List Nat) :
    (s.send_raw_data data).current_routine = s.current_routine :=
  (send_raw_data_routines s data).1

/-- `write_raw` keeps the parents (projection form). -/
@[simp]
theorem send_raw_data_parents (s : BufferSink) (data : List Nat) :
    (s.send_raw_data data).parent_routines = s.parent_routines :=
  (send_raw_data_routines s data).2

/-- `write_raw` reads only the buffer and the cursor. -/
theorem send_raw_data_fields_eq (s t : BufferSink) (data : List Nat)
    (hb : s.buffer = t.buffer) (hc : s.cursor = t.cursor) :
    (s.send_raw_data data).buffer = (t.send_raw_data data).buffer ∧
    (s.send_raw_data data).cursor = (t.send_raw_data data).cursor := by
  obtain ⟨b, cu, cr, pr⟩ := s
  obtain ⟨b2, cu2, cr2, pr2⟩ := t
  simp only at hb hc
  subst hb
  subst hc
  constructor <;> (simp only [BufferSink.send_raw_data]; split <;> rfl)

/-- `push_resolving` writes the placeholder via `send_usize 0` and opens one
pending scope at the old cursor. -/
theorem push_resolving_fields (s : BufferSink) :
    (s.push_resolving).buffer = (s.send_usize 0).buffer ∧
    (s.push_resolving).cursor = (s.send_usize 0).cursor := by
  unfold BufferSink.push_resolving
  by_cases hid : s.current_routine = .resolved 0
  · rw [if_pos hid]
    exact send_raw_data_fields_eq _ s (leBytes 8 0) rfl rfl
  · rw [if_neg hid]
    exact send_raw_data_fields_eq _ s (leBytes 8 0) rfl rfl

theorem push_resolving_stack {s : BufferSink} (h : GoodStack s) :
    (s.push_resolving).stack = .pend s.cursor 0 :: s.stack := by
  unfold BufferSink.push_resolving
  by_cases hid : s.current_routine = .resolved 0
  · have hp : s.parent_routines = [] := h.1 hid
    rw [if_pos hid]
    simp [BufferSink.stack, BufferSink.send_usize, hid, hp, expandRoutine]
  · rw [if_neg hid]
    simp [BufferSink.stack, BufferSink.send_usize, expandRoutine]

theorem push_resolving_good {s : BufferSink} (h : GoodStack s) :
    GoodStack (s.push_resolving) := by
  unfold BufferSink.push_resolving
  by_cases hid : s.current_routine = .resolved 0
  · have hp : s.parent_routines = [] := h.1 hid
    rw [if_pos hid]
    refine ⟨fun _ => ?_, ?_⟩
    · simp [BufferSink.send_usize, hp]
    · intro r hm
      simp [BufferSink.send_usize, hp] at hm
  · rw [if_neg hid]
    refine ⟨fun habs => ?_, ?_⟩
    · simp [BufferSink.send_usize] at habs
    · intro r hm
      simp [BufferSink.send_usize] at hm
      rcases hm with hm | hm
      · rw [hm]; exact hid
      · exact h.2 r hm

/-- `inc_size` only touches the current routine. -/
theorem inc_size_fields (s : BufferSink) :
    (s.inc_size).buffer = s.buffer ∧ (s.inc_size).cursor = s.cursor ∧
    (s.inc_size).parent_routines = s.parent_routines := by
  unfold BufferSink.inc_size
  cases h : s.current_routine <;> simp

theorem inc_size_stack {s : BufferSink} (h : GoodStack s) :
    (s.inc_size).stack = incTop s.stack := by
  unfold BufferSink.inc_size
  cases hc : s.current_routine with
  | resolved k =>
    cases k with
    | zero =>
      have hp : s.parent_routines = [] := h.1 hc
      simp [BufferSink.stack, hc, hp, expandRoutine, incTop]
    | succ k =>
      simp [BufferSink.stack, hc, expandRoutine, List.replicate_succ, incTop]
  | resolving c m =>
    simp [BufferSink.stack, hc, expandRoutine, incTop]

theorem inc_size_good {s : BufferSink} (h : GoodStack s) :
    GoodStack (s.inc_size) := by
  unfold BufferSink.inc_size
  cases hc : s.current_routine with
  | resolved k => exact h
  | resolving c m =>
    refine ⟨fun habs => ?_, ?_⟩
    · simp at habs
    · intro r hm
      simp at hm
      exact h.2 r hm

/-- Inversion: an empty scope stack is exactly the idle routine state. -/
theorem stack_nil_inv {s : BufferSink} (h : GoodStack s) (hs : s.stack = []) :
    s.current_routine = .resolved 0 ∧ s.parent_routines = [] := by
  unfold BufferSink.stack at hs
  rw [List.append_eq_nil] at hs
  cases hc : s.current_routine with
  | resolved k =>
    cases k with
    | zero => exact ⟨rfl, h.1 hc⟩
    | succ k =>
      rw [hc] at hs
      simp [expandRoutine, List.replicate_succ] at hs
  | resolving c m =>
    rw [hc] at hs
    simp [expandRoutine] at hs

/-- Inversion: a `.res` top comes from a `Resolved` current routine with a
positive count. -/
theorem stack_cons_res_inv {s : BufferSink} (h : GoodStack s) {t : List AbsFrame}
    (hs : s.stack = .res :: t) : ∃ k, s.current_routine = .resolved (k + 1) := by
  cases hc : s.current_routine with
  | resolved k =>
    cases k with
    | zero =>
      have hp : s.parent_routines = [] := h.1 hc
      rw [BufferSink.stack, hc, hp] at hs
      simp [expandRoutine] at hs
    | succ k => exact ⟨k, rfl⟩
  | resolving c m =>
    rw [BufferSink.stack, hc] at hs
    simp [expandRoutine] at hs

/-- Inversion: a `.pend` top comes from the matching `Resolving` current
routine, and the tail is the parents' expansion. -/
theorem stack_cons_pend_inv {s : BufferSink} (h : GoodStack s)
    {q c : Nat} {t : List AbsFrame} (hs : s.stack = .pend q c :: t) :
    s.current_routine = .resolving q c ∧
    (s.parent_routines.map expandRoutine).flatten = t := by
  cases hc : s.current_routine with
  | resolved k =>
    cases k with
    | zero =>
      have hp : s.parent_routines = [] := h.1 hc
      rw [BufferSink.stack, hc, hp] at hs
      simp [expandRoutine] at hs
    | succ k =>
      rw [BufferSink.stack, hc] at hs
      simp [expandRoutine, List.replicate_succ] at hs
  | resolving q2 c2 =>
    rw [BufferSink.stack, hc] at hs
    simp [expandRoutine] at hs
    exact ⟨by rw [hs.1.1, hs.1.2], hs.2⟩

/-- `pop` on the idle sink is the identity (the open count saturates). -/
theorem pop_idle {s : BufferSink}
    (hc : s.current_routine = .resolved 0) : s.pop = s := by
  obtain ⟨b, cur, cr, pr⟩ := s
  simp only at hc
  subst hc
  simp [BufferSink.pop]

/-- `pop` with a `.res` top removes it and writes nothing. -/
theorem pop_res {s : BufferSink} (h : GoodStack s) {t : List AbsFrame}
    (hs : s.stack = .res :: t) :
    (s.pop).stack = t ∧ (s.pop).buffer = s.buffer ∧
    (s.pop).cursor = s.cursor ∧ GoodStack (s.pop) := by
  obtain ⟨k, hk⟩ := stack_cons_res_inv h hs
  obtain ⟨b, cur, cr, pr⟩ := s
  simp only at hk
  subst hk
  rw [BufferSink.stack] at hs
  simp only at hs
  cases k with
  | zero =>
    cases hp : pr with
    | nil =>
      subst hp
      simp [expandRoutine, List.replicate_succ] at hs
      refine ⟨?_, rfl, rfl, ?_⟩
      · simp [BufferSink.pop, BufferSink.stack, expandRoutine, hs.symm]
      · exact ⟨fun _ => rfl, by simp [BufferSink.pop]⟩
    | cons r rest =>
      subst hp
      simp [expandRoutine, List.replicate_succ] at hs
      refine ⟨?_, rfl, rfl, ?_⟩
      · simp [BufferSink.pop, BufferSink.stack, expandRoutine, hs.symm]
      · refine ⟨fun hr0 => ?_, fun r2 hm => h.2 r2 (by simp; exact Or.inr (by simpa using hm))⟩
        exfalso
        exact h.2 r (by simp) (by simpa [BufferSink.pop] using hr0)
  | succ k =>
    simp [expandRoutine, List.replicate_succ] at hs
    refine ⟨?_, rfl, rfl, ?_⟩
    · simp [BufferSink.pop, BufferSink.stack, expandRoutine, List.replicate_succ, hs.symm]
    · refine ⟨fun habs => ?_, ?_⟩
      · simp [BufferSink.pop] at habs
      · intro r2 hm
        simp [BufferSink.pop] at hm
        exact h.2 r2 (by simpa using hm)

/-- `pop` with a `.pend` top back-patches the placeholder at `q` with the
count `c`, restores the cursor, and removes the scope. -/
theorem pop_pend {s : BufferSink} (h : GoodStack s) {q c : Nat} {t : List AbsFrame}
    (hs : s.stack = .pend q c :: t) (hq : q + 8 ≤ s.buffer.length) :
    (s.pop).stack = t ∧
    (s.pop).buffer = s.buffer.take q ++ leBytes 8 c ++ s.buffer.drop (q + 8) ∧
    (s.pop).cursor = s.cursor ∧
    (s.pop).buffer.length = s.buffer.length ∧
    GoodStack (s.pop) := by
  obtain ⟨hk, hflat⟩ := stack_cons_pend_inv h hs
  obtain ⟨b, cur, cr, pr⟩ := s
  simp only at hk hflat hq
  subst hk
  cases hp : pr with
  | nil =>
    subst hp
    have hspec := send_raw_data_spec ⟨b, q, BufferSinkRoutine.resolved 0, []⟩
      (leBytes 8 c) (by simp; omega)
    have hpop : BufferSink.pop ⟨b, cur, BufferSinkRoutine.resolving q c, []⟩ =
        ⟨b.take q ++ leBytes 8 c ++ b.drop (q + 8), cur,
         BufferSinkRoutine.resolved 0, []⟩ := by
      simp only [BufferSink.pop, BufferSink.send_usize]
      rw [hspec]
      simp
    rw [hpop]
    refine ⟨by simp [BufferSink.stack, expandRoutine]; simpa using hflat.symm,
      rfl, rfl, ?_, ⟨fun _ => rfl, by simp⟩⟩
    simp
    omega
  | cons r rest =>
    subst hp
    have hspec := send_raw_data_spec ⟨b, q, r, rest⟩ (leBytes 8 c) (by simp; omega)
    have hpop : BufferSink.pop ⟨b, cur, BufferSinkRoutine.resolving q c, r :: rest⟩ =
        ⟨b.take q ++ leBytes 8 c ++ b.drop (q + 8), cur, r, rest⟩ := by
      simp only [BufferSink.pop, BufferSink.send_usize]
      rw [hspec]
      simp
    rw [hpop]
    refine ⟨by simp [BufferSink.stack]; simpa using hflat, rfl, rfl, ?_, ?_⟩
    · simp
      omega
    · refine ⟨fun hr0 => ?_, fun r2 hm => h.2 r2 (by simp; exact Or.inr (by simpa using hm))⟩
      exfalso
      exact h.2 r (by simp) hr0

/-! ## Appending runs: traces with known length hints only -/

theorem runOps_append_ops (s : BufferSink) (a b : List Op) :
    runOps s (a ++ b) = runOps (runOps s a) b := by
  induction a generalizing s with
  | nil => rfl
  | cons op rest ih => simp [runOps, ih]

theorem runChannelOps_append_ops (s : ChannelSink) (a b : List Op) :
    runChannelOps s (a ++ b) = runChannelOps (runChannelOps s a) b := by
  induction a generalizing s with
  | nil => rfl
  | cons op rest ih => simp [runChannelOps, ih]

/-- `advance_var_sized` is a no-op while the current routine is resolved. -/
theorem advance_resolved {s : BufferSink} {k : Nat}
    (hc : s.current_routine = .resolved k) : s.advance_var_sized = s := by
  unfold BufferSink.advance_var_sized BufferSink.inc_size
  rw [hc]

/-- `push_resolved` on a resolved routine with the cursor at the end:
append the length prefix and bump the open count. -/
theorem push_resolved_resolved {s : BufferSink} {k : Nat} (n : Nat)
    (hc : s.current_routine = .resolved k) (hcur : s.cursor = s.buffer.length) :
    s.push_resolved n =
      ⟨s.buffer ++ leBytes 8 n, s.buffer.length + 8, .resolved (k + 1),
       s.parent_routines⟩ := by
  unfold BufferSink.push_resolved BufferSink.send_usize
  rw [send_raw_data_append s _ hcur]
  simp [hc]

/-- `pop` on a resolved routine with no parents decrements the count
(saturating at zero). -/
theorem pop_resolved_noparents {s : BufferSink} {k : Nat}
    (hc : s.current_routine = .resolved k) (hp : s.parent_routines = []) :
    s.pop = { s with current_routine := .resolved (k - 1) } := by
  obtain ⟨b, cur, cr, pr⟩ := s
  simp only at hc hp
  subst hc
  subst hp
  match k with
  | 0 => simp [BufferSink.pop]
  | 1 => simp [BufferSink.pop]
  | k + 2 => simp [BufferSink.pop]

/-- Running a trace without unknown-length hints on an appending sink with
only a resolved routine and no parents: the buffer grows by exactly
`flatBytes`, the cursor stays at the end, the routine stays resolved. -/
theorem runOps_flat : ∀ (ops : List Op) (s : BufferSink) (k : Nat),
    noStartNone ops = true → s.current_routine = .resolved k →
    s.parent_routines = [] → s.cursor = s.buffer.length →
    (runOps s ops).buffer = s.buffer ++ flatBytes ops ∧
    (runOps s ops).cursor = (runOps s ops).buffer.length ∧
    (runOps s ops).parent_routines = [] ∧
    ∃ k2, (runOps s ops).current_routine = .resolved k2 := by
  intro ops
  induction ops with
  | nil =>
    intro s k hn hc hp hcur
    exact ⟨by simp [runOps, flatBytes], by simp [runOps, hcur], by simp [runOps, hp],
      ⟨k, by simp [runOps, hc]⟩⟩
  | cons op rest ih =>
    intro s k hn hc hp hcur
    cases op with
    | raw d =>
      have hstep : s.applyOp (.raw d) =
          ⟨s.buffer ++ d, s.buffer.length + d.length, s.current_routine,
           s.parent_routines⟩ := by
        simp [BufferSink.applyOp]
        exact send_raw_data_append s d hcur
      have hn2 : noStartNone rest = true := by simpa [noStartNone] using hn
      have ihr := ih (s.applyOp (.raw d)) k hn2 (by rw [hstep]; exact hc)
        (by rw [hstep]; exact hp) (by rw [hstep]; simp)
      refine ⟨?_, ihr.2.1, ihr.2.2.1, ihr.2.2.2⟩
      rw [runOps, ihr.1, hstep]
      simp [flatBytes]
    | startVar size =>
      cases size with
      | none => simp [noStartNone] at hn
      | some n =>
        have hstep : s.applyOp (.startVar (some n)) =
            ⟨s.buffer ++ leBytes 8 n, s.buffer.length + 8, .resolved (k + 1),
             s.parent_routines⟩ := by
          simp [BufferSink.applyOp, BufferSink.start_var_sized, BufferSink.push]
          exact push_resolved_resolved n hc hcur
        have hn2 : noStartNone rest = true := by simpa [noStartNone] using hn
        have ihr := ih (s.applyOp (.startVar (some n))) (k + 1) hn2
          (by rw [hstep]) (by rw [hstep]; exact hp) (by rw [hstep]; simp)
        refine ⟨?_, ihr.2.1, ihr.2.2.1, ihr.2.2.2⟩
        rw [runOps, ihr.1, hstep]
        simp [flatBytes]
    | advanceVar =>
      have hstep : s.applyOp .advanceVar = s := by
        simp [BufferSink.applyOp]
        exact advance_resolved hc
      have hn2 : noStartNone rest = true := by simpa [noStartNone] using hn
      have ihr := ih s k hn2 hc hp hcur
      refine ⟨?_, ?_, ?_, ?_⟩ <;> rw [runOps, hstep]
      · rw [ihr.1]; simp [flatBytes]
      · exact ihr.2.1
      · exact ihr.2.2.1
      · exact ihr.2.2.2
    | endVar =>
      have hstep : s.applyOp .endVar = { s with current_routine := .resolved (k - 1) } := by
        simp [BufferSink.applyOp, BufferSink.end_var_sized]
        exact pop_resolved_noparents hc hp
      have hn2 : noStartNone rest = true := by simpa [noStartNone] using hn
      have ihr := ih (s.applyOp .endVar) (k - 1) hn2 (by rw [hstep]) (by rw [hstep]; exact hp)
        (by rw [hstep]; exact hcur)
      refine ⟨?_, ihr.2.1, ihr.2.2.1, ihr.2.2.2⟩
      rw [runOps, ihr.1, hstep]
      simp [flatBytes]

/-! ## The serializer trace flattens to `encodeVal` -/

theorem flatBytes_append (a b : List Op) :
    flatBytes (a ++ b) = flatBytes a ++ flatBytes b := by
  induction a with
  | nil => simp [flatBytes]
  | cons op rest ih =>
    cases op with
    | raw d => simp [flatBytes, ih]
    | startVar size => cases size <;> simp [flatBytes, ih]
    | advanceVar => simp [flatBytes, ih]
    | endVar => simp [flatBytes, ih]

theorem noStartNone_append (a b : List Op) :
    noStartNone (a ++ b) = (noStartNone a && noStartNone b) := by
  induction a with
  | nil => simp [noStartNone]
  | cons op rest ih =>
    cases op with
    | raw d => simp [noStartNone, ih]
    | startVar size => cases size <;> simp [noStartNone, ih]
    | advanceVar => simp [noStartNone, ih]
    | endVar => simp [noStartNone, ih]

mutual
theorem emit_noStartNone : (v : Val) → noStartNone (emit v) = true
| .vprim w bits => by simp [emit, noStartNone]
| .vchar c => by simp [emit, noStartNone]
| .vbytes bs => by simp [emit, noStartNone]
| .vstr bs => by simp [emit, noStartNone]
| .vnone => by simp [emit, noStartNone]
| .vsome v => by simp [emit, noStartNone, emit_noStartNone v]
| .vunit => by simp [emit, noStartNone]
| .vseq vs => by
  simp [emit, noStartNone, noStartNone_append, emitSeqItems_noStartNone vs]
| .vtup vs => by simp [emit, emitFields_noStartNone vs]
| .vmap es => by
  simp [emit, noStartNone, noStartNone_append, emitEntries_noStartNone es]
| .vvariant i fs => by simp [emit, noStartNone, emitFields_noStartNone fs]

theorem emitSeqItems_noStartNone : (vs : ValList) → noStartNone (emitSeqItems vs) = true
| .nil => by simp [emitSeqItems, noStartNone]
| .cons v vs => by
  simp [emitSeqItems, noStartNone, noStartNone_append, emit_noStartNone v,
    emitSeqItems_noStartNone vs]

theorem emitFields_noStartNone : (vs : ValList) → noStartNone (emitFields vs) = true
| .nil => by simp [emitFields, noStartNone]
| .cons v vs => by
  simp [emitFields, noStartNone_append, emit_noStartNone v, emitFields_noStartNone vs]

theorem emitEntries_noStartNone : (es : EntryList) → noStartNone (emitEntries es) = true
| .nil => by simp [emitEntries, noStartNone]
| .cons k v es => by
  simp [emitEntries, noStartNone, noStartNone_append, emit_noStartNone k,
    emit_noStartNone v, emitEntries_noStartNone es]
end

mutual
theorem emit_flat : (v : Val) → flatBytes (emit v) = encodeVal v
| .vprim w bits => by simp [emit, encodeVal, flatBytes]
| .vchar c => by simp [emit, encodeVal, flatBytes]
| .vbytes bs => by simp [emit, encodeVal, flatBytes]
| .vstr bs => by simp [emit, encodeVal, flatBytes]
| .vnone => by simp [emit, encodeVal, flatBytes]
| .vsome v => by simp [emit, encodeVal, flatBytes, emit_flat v]
| .vunit => by simp [emit, encodeVal, flatBytes]
| .vseq vs => by
  simp [emit, encodeVal, flatBytes, flatBytes_append, emitSeqItems_flat vs]
| .vtup vs => by simp [emit, encodeVal, emitFields_flat vs]
| .vmap es => by
  simp [emit, encodeVal, flatBytes, flatBytes_append, emitEntries_flat es]
| .vvariant i fs => by simp [emit, encodeVal, flatBytes, emitFields_flat fs]

theorem emitSeqItems_flat : (vs : ValList) → flatBytes (emitSeqItems vs) = encodeList vs
| .nil => by simp [emitSeqItems, encodeList, flatBytes]
| .cons v vs => by
  simp [emitSeqItems, encodeList, flatBytes, flatBytes_append, emit_flat v,
    emitSeqItems_flat vs]

theorem emitFields_flat : (vs : ValList) → flatBytes (emitFields vs) = encodeList vs
| .nil => by simp [emitFields, encodeList, flatBytes]
| .cons v vs => by
  simp [emitFields, encodeList, flatBytes_append, emit_flat v, emitFields_flat vs]

theorem emitEntries_flat : (es : EntryList) → flatBytes (emitEntries es) = encodeEntries es
| .nil => by simp [emitEntries, encodeEntries, flatBytes]
| .cons k v es => by
  simp [emitEntries, encodeEntries, flatBytes, flatBytes_append, emit_flat k,
    emit_flat v, emitEntries_flat es]
end

/-- Serializing a value through the buffer sink (`serialize_into_buffer`
with the serializer's sink-call trace) produces exactly `encodeVal`. -/
theorem serialize_buffer_eq (v : Val) :
    (runOps BufferSink.new (emit v)).buffer = encodeVal v := by
  have h := runOps_flat (emit v) BufferSink.new 0 (emit_noStartNone v) rfl rfl rfl
  rw [h.1, emit_flat v]
  rfl

/-! ## Decode/encode round trip -/

/-- `recv_raw_data` reads exactly the next bytes. -/
theorem recv_exact (pre bs rest : List Nat) :
    BufferSource.recv_raw_data ⟨pre ++ (bs ++ rest), pre.length⟩ bs.length =
      .ok (bs, ⟨pre ++ (bs ++ rest), pre.length + bs.length⟩) := by
  unfold BufferSource.recv_raw_data
  rw [if_pos (by simp)]
  have h1 : (pre ++ (bs ++ rest)).drop pre.length = bs ++ rest := by
    rw [List.drop_append_eq_append_drop]
    simp
  have h2 : (bs ++ rest).take bs.length = bs := List.take_left bs rest
  simp [h1, h2]

/-- Dispatch of `SumAccess` to the variant found by ordinal lookup. -/
theorem decodeVariant_get : (vars : VariantList) → ∀ (i : Nat) (fss : ShapeList)
    (src : BufferSource), variantGet vars i = some fss →
    decodeVariant vars i src = decodeFields fss src
| .nil => by
  intro i fss src h
  simp [variantGet] at h
| .cons f rest => by
  intro i fss src h
  cases i with
  | zero =>
    simp [variantGet] at h
    subst h
    simp [decodeVariant]
  | succ j =>
    simp [variantGet] at h
    simp only [decodeVariant]
    exact decodeVariant_get rest j fss src h

mutual
theorem rt_val : (v : Val) → ∀ (s : Shape) (pre rest : List Nat),
    good s v = true →
    decodeVal s ⟨pre ++ (encodeVal v ++ rest), pre.length⟩ =
      .ok (v, ⟨pre ++ (encodeVal v ++ rest), pre.length + (encodeVal v).length⟩)
| .vprim w bits => by
  intro s pre rest h
  cases s <;> simp only [good, Bool.and_eq_true, beq_iff_eq, decide_eq_true_eq, Bool.false_eq_true] at h
  obtain ⟨hw, hb⟩ := h
  rw [hw] at hb ⊢
  simp only [decodeVal, encodeVal]
  rw [show BufferSource.recv_raw_data ⟨pre ++ (leBytes w bits ++ rest), pre.length⟩ w =
      .ok (leBytes w bits, ⟨pre ++ (leBytes w bits ++ rest), pre.length + w⟩) from by
    simpa using recv_exact pre (leBytes w bits) rest]
  simp [fromLeBytes_leBytes hb]
| .vchar c => by
  intro s pre rest h
  cases s <;> simp only [good, Bool.false_eq_true] at h
  have hc32 : c < 2 ^ (8 * 4) := by
    simp [isScalar] at h
    rcases h with h | h <;> omega
  simp only [decodeVal, encodeVal]
  rw [show BufferSource.recv_raw_data ⟨pre ++ (leBytes 4 c ++ rest), pre.length⟩ 4 =
      .ok (leBytes 4 c, ⟨pre ++ (leBytes 4 c ++ rest), pre.length + 4⟩) from by
    simpa using recv_exact pre (leBytes 4 c) rest]
  simp [fromLeBytes_leBytes hc32, h]
| .vbytes bs => by
  intro s pre rest h
  cases s <;> simp only [good, Bool.and_eq_true, decide_eq_true_eq, Bool.false_eq_true] at h
  simp only [decodeVal, encodeVal]
  rw [show pre ++ ((leBytes 8 bs.length ++ bs) ++ rest) =
      pre ++ (leBytes 8 bs.length ++ (bs ++ rest)) from by simp]
  rw [show BufferSource.recv_raw_data
      ⟨pre ++ (leBytes 8 bs.length ++ (bs ++ rest)), pre.length⟩ 8 =
      .ok (leBytes 8 bs.length,
        ⟨pre ++ (leBytes 8 bs.length ++ (bs ++ rest)), pre.length + 8⟩) from by
    simpa using recv_exact pre (leBytes 8 bs.length) (bs ++ rest)]
  dsimp only
  rw [fromLeBytes_leBytes (by exact_mod_cast h.1 : bs.length < 2 ^ (8 * 8))]
  have h2 := recv_exact (pre ++ leBytes 8 bs.length) bs rest
  simp only [List.append_assoc, List.length_append, leBytes_length] at h2
  rw [h2]
  simp [Nat.add_assoc]
| .vstr bs => by
  intro s pre rest h
  cases s <;> simp only [good, Bool.and_eq_true, decide_eq_true_eq, Bool.false_eq_true] at h
  simp only [decodeVal, encodeVal]
  rw [show pre ++ ((leBytes 8 bs.length ++ bs) ++ rest) =
      pre ++ (leBytes 8 bs.length ++ (bs ++ rest)) from by simp]
  rw [show BufferSource.recv_raw_data
      ⟨pre ++ (leBytes 8 bs.length ++ (bs ++ rest)), pre.length⟩ 8 =
      .ok (leBytes 8 bs.length,
        ⟨pre ++ (leBytes 8 bs.length ++ (bs ++ rest)), pre.length + 8⟩) from by
    simpa using recv_exact pre (leBytes 8 bs.length) (bs ++ rest)]
  dsimp only
  rw [fromLeBytes_leBytes (by exact_mod_cast h.1 : bs.length < 2 ^ (8 * 8))]
  have h2 := recv_exact (pre ++ leBytes 8 bs.length) bs rest
  simp only [List.append_assoc, List.length_append, leBytes_length] at h2
  rw [h2]
  simp [h.2, Nat.add_assoc]
| .vnone => by
  intro s pre rest h
  cases s <;> simp only [good, Bool.false_eq_true] at h
  simp only [decodeVal, encodeVal]
  rw [show BufferSource.recv_raw_data ⟨pre ++ (leBytes 1 0 ++ rest), pre.length⟩ 1 =
      .ok (leBytes 1 0, ⟨pre ++ (leBytes 1 0 ++ rest), pre.length + 1⟩) from by
    simpa using recv_exact pre (leBytes 1 0) rest]
  simp [leBytes, fromLeBytes]
| .vsome v => by
  intro s pre rest h
  cases s with
  | sopt s =>
    simp only [good] at h
    simp only [decodeVal, encodeVal]
    rw [show pre ++ ((leBytes 1 1 ++ encodeVal v) ++ rest) =
        pre ++ (leBytes 1 1 ++ (encodeVal v ++ rest)) from by simp]
    rw [show BufferSource.recv_raw_data
        ⟨pre ++ (leBytes 1 1 ++ (encodeVal v ++ rest)), pre.length⟩ 1 =
        .ok (leBytes 1 1,
          ⟨pre ++ (leBytes 1 1 ++ (encodeVal v ++ rest)), pre.length + 1⟩) from by
      simpa using recv_exact pre (leBytes 1 1) (encodeVal v ++ rest)]
    dsimp only
    rw [if_neg (by simp [leBytes, fromLeBytes])]
    have h2 := rt_val v s (pre ++ leBytes 1 1) rest h
    simp only [List.append_assoc, List.length_append, leBytes_length] at h2
    rw [h2]
    simp [Nat.add_assoc]
  | sprim w => simp [good] at h
  | schar => simp [good] at h
  | sbytes => simp [good] at h
  | sstr => simp [good] at h
  | sunit => simp [good] at h
  | sseq s => simp [good] at h
  | stup ss => simp [good] at h
  | smap k v2 => simp [good] at h
  | ssum vars => simp [good] at h
| .vunit => by
  intro s pre rest h
  cases s <;> simp only [good, Bool.false_eq_true] at h
  simp [decodeVal, encodeVal]
| .vseq vs => by
  intro s pre rest h
  cases s with
  | sseq s =>
    simp only [good, Bool.and_eq_true, decide_eq_true_eq] at h
    simp only [decodeVal, encodeVal]
    rw [show pre ++ ((leBytes 8 vs.length ++ encodeList vs) ++ rest) =
        pre ++ (leBytes 8 vs.length ++ (encodeList vs ++ rest)) from by simp]
    rw [show BufferSource.recv_raw_data
        ⟨pre ++ (leBytes 8 vs.length ++ (encodeList vs ++ rest)), pre.length⟩ 8 =
        .ok (leBytes 8 vs.length,
          ⟨pre ++ (leBytes 8 vs.length ++ (encodeList vs ++ rest)), pre.length + 8⟩) from by
      simpa using recv_exact pre (leBytes 8 vs.length) (encodeList vs ++ rest)]
    dsimp only
    rw [fromLeBytes_leBytes (by exact_mod_cast h.1 : vs.length < 2 ^ (8 * 8))]
    have h2 := rt_list vs s (pre ++ leBytes 8 vs.length) rest h.2
    simp only [List.append_assoc, List.length_append, leBytes_length] at h2
    rw [h2]
    simp [Nat.add_assoc]
  | sprim w => simp [good] at h
  | schar => simp [good] at h
  | sbytes => simp [good] at h
  | sstr => simp [good] at h
  | sopt s => simp [good] at h
  | sunit => simp [good] at h
  | stup ss => simp [good] at h
  | smap k v2 => simp [good] at h
  | ssum vars => simp [good] at h
| .vtup vs => by
  intro s pre rest h
  cases s with
  | stup ss =>
    simp only [good] at h
    simp only [decodeVal, encodeVal]
    rw [rt_fields vs ss pre rest h]
  | sprim w => simp [good] at h
  | schar => simp [good] at h
  | sbytes => simp [good] at h
  | sstr => simp [good] at h
  | sopt s => simp [good] at h
  | sunit => simp [good] at h
  | sseq s => simp [good] at h
  | smap k v2 => simp [good] at h
  | ssum vars => simp [good] at h
| .vmap es => by
  intro s pre rest h
  cases s with
  | smap ks vs2 =>
    simp only [good, Bool.and_eq_true, decide_eq_true_eq] at h
    simp only [decodeVal, encodeVal]
    rw [show pre ++ ((leBytes 8 es.length ++ encodeEntries es) ++ rest) =
        pre ++ (leBytes 8 es.length ++ (encodeEntries es ++ rest)) from by simp]
    rw [show BufferSource.recv_raw_data
        ⟨pre ++ (leBytes 8 es.length ++ (encodeEntries es ++ rest)), pre.length⟩ 8 =
        .ok (leBytes 8 es.length,
          ⟨pre ++ (leBytes 8 es.length ++ (encodeEntries es ++ rest)), pre.length + 8⟩) from by
      simpa using recv_exact pre (leBytes 8 es.length) (encodeEntries es ++ rest)]
    dsimp only
    rw [fromLeBytes_leBytes (by exact_mod_cast h.1 : es.length < 2 ^ (8 * 8))]
    have h2 := rt_entries es ks vs2 (pre ++ leBytes 8 es.length) rest h.2
    simp only [List.append_assoc, List.length_append, leBytes_length] at h2
    rw [h2]
    simp [Nat.add_assoc]
  | sprim w => simp [good] at h
  | schar => simp [good] at h
  | sbytes => simp [good] at h
  | sstr => simp [good] at h
  | sopt s => simp [good] at h
  | sunit => simp [good] at h
  | sseq s => simp [good] at h
  | stup ss => simp [good] at h
  | ssum vars => simp [good] at h
| .vvariant i fs => by
  intro s pre rest h
  cases s with
  | ssum vars =>
    simp only [good, Bool.and_eq_true, decide_eq_true_eq] at h
    obtain ⟨hi, hrest⟩ := h
    cases hget : variantGet vars i with
    | none => rw [hget] at hrest; simp at hrest
    | some fss =>
      rw [hget] at hrest
      simp only [decodeVal, encodeVal]
      rw [show pre ++ ((leBytes 4 i ++ encodeList fs) ++ rest) =
          pre ++ (leBytes 4 i ++ (encodeList fs ++ rest)) from by simp]
      rw [show BufferSource.recv_raw_data
          ⟨pre ++ (leBytes 4 i ++ (encodeList fs ++ rest)), pre.length⟩ 4 =
          .ok (leBytes 4 i,
            ⟨pre ++ (leBytes 4 i ++ (encodeList fs ++ rest)), pre.length + 4⟩) from by
        simpa using recv_exact pre (leBytes 4 i) (encodeList fs ++ rest)]
      dsimp only
      rw [fromLeBytes_leBytes (by exact_mod_cast hi : i < 2 ^ (8 * 4))]
      rw [decodeVariant_get vars i fss _ hget]
      have h2 := rt_fields fs fss (pre ++ leBytes 4 i) rest hrest
      simp only [List.append_assoc, List.length_append, leBytes_length] at h2
      rw [h2]
      simp [Nat.add_assoc]
  | sprim w => simp [good] at h
  | schar => simp [good] at h
  | sbytes => simp [good] at h
  | sstr => simp [good] at h
  | sopt s => simp [good] at h
  | sunit => simp [good] at h
  | sseq s => simp [good] at h
  | stup ss => simp [good] at h
  | smap k v2 => simp [good] at h

theorem rt_list : (vs : ValList) → ∀ (s : Shape) (pre rest : List Nat),
    goodList s vs = true →
    decodeList s vs.length ⟨pre ++ (encodeList vs ++ rest), pre.length⟩ =
      .ok (vs, ⟨pre ++ (encodeList vs ++ rest), pre.length + (encodeList vs).length⟩)
| .nil => by
  intro s pre rest h
  simp [ValList.length, decodeList, encodeList]
| .cons v vs => by
  intro s pre rest h
  simp only [goodList, Bool.and_eq_true] at h
  simp only [ValList.length, encodeList, decodeList]
  rw [show pre ++ ((encodeVal v ++ encodeList vs) ++ rest) =
      pre ++ (encodeVal v ++ (encodeList vs ++ rest)) from by simp]
  rw [rt_val v s pre (encodeList vs ++ rest) h.1]
  dsimp only
  have h2 := rt_list vs s (pre ++ encodeVal v) rest h.2
  simp only [List.append_assoc, List.length_append] at h2
  rw [h2]
  simp [Nat.add_assoc]

theorem rt_fields : (vs : ValList) → ∀ (ss : ShapeList) (pre rest : List Nat),
    goodFields ss vs = true →
    decodeFields ss ⟨pre ++ (encodeList vs ++ rest), pre.length⟩ =
      .ok (vs, ⟨pre ++ (encodeList vs ++ rest), pre.length + (encodeList vs).length⟩)
| .nil => by
  intro ss pre rest h
  cases ss with
  | nil => simp [decodeFields, encodeList]
  | cons s ss => simp [goodFields] at h
| .cons v vs => by
  intro ss pre rest h
  cases ss with
  | nil => simp [goodFields] at h
  | cons s ss =>
    simp only [goodFields, Bool.and_eq_true] at h
    simp only [encodeList, decodeFields]
    rw [show pre ++ ((encodeVal v ++ encodeList vs) ++ rest) =
        pre ++ (encodeVal v ++ (encodeList vs ++ rest)) from by simp]
    rw [rt_val v s pre (encodeList vs ++ rest) h.1]
    dsimp only
    have h2 := rt_fields vs ss (pre ++ encodeVal v) rest h.2
    simp only [List.append_assoc, List.length_append] at h2
    rw [h2]
    simp [Nat.add_assoc]

theorem rt_entries : (es : EntryList) → ∀ (ks vs2 : Shape) (pre rest : List Nat),
    goodEntries ks vs2 es = true →
    decodeEntries ks vs2 es.length ⟨pre ++ (encodeEntries es ++ rest), pre.length⟩ =
      .ok (es, ⟨pre ++ (encodeEntries es ++ rest), pre.length + (encodeEntries es).length⟩)
| .nil => by
  intro ks vs2 pre rest h
  simp [EntryList.length, decodeEntries, encodeEntries]
| .cons kv vv es => by
  intro ks vs2 pre rest h
  simp only [goodEntries, Bool.and_eq_true] at h
  simp only [EntryList.length, encodeEntries, decodeEntries]
  rw [show pre ++ ((encodeVal kv ++ encodeVal vv ++ encodeEntries es) ++ rest) =
      pre ++ (encodeVal kv ++ (encodeVal vv ++ (encodeEntries es ++ rest))) from by simp]
  rw [rt_val kv ks pre (encodeVal vv ++ (encodeEntries es ++ rest)) h.1.1]
  dsimp only
  have h2 := rt_val vv vs2 (pre ++ encodeVal kv) (encodeEntries es ++ rest) h.1.2
  simp only [List.append_assoc, List.length_append] at h2
  rw [h2]
  dsimp only
  have h3 := rt_entries es ks vs2 (pre ++ encodeVal kv ++ encodeVal vv) rest h.2
  simp only [List.append_assoc, List.length_append] at h3
  rw [show pre.length + ((encodeVal kv).length + (encodeVal vv).length) =
      pre.length + (encodeVal kv).length + (encodeVal vv).length from by omega] at h3
  rw [h3]
  simp [Nat.add_assoc]
end

/-- Round trip of the value codec at the byte level: decoding the encoding
of a well-formed value consumes it entirely and returns the value. -/
theorem decode_encode (s : Shape) (v : Val) (h : good s v = true) :
    decodeVal s (BufferSource.new (encodeVal v)) =
      .ok (v, ⟨encodeVal v, (encodeVal v).length⟩) := by
  have hrt := rt_val v s [] [] h
  simpa [BufferSource.new] using hrt

/-! ## Length-hint invariance: simulation of the known- and unknown-length
runs of the buffer sink -/

theorem take_append_ge {α : Type} {l1 l2 : List α} {n : Nat} (h : l1.length ≤ n) :
    (l1 ++ l2).take n = l1 ++ l2.take (n - l1.length) := by
  rw [List.take_append_eq_append_take, List.take_of_length_le h]

theorem drop_append_ge {α : Type} {l1 l2 : List α} {n : Nat} (h : l1.length ≤ n) :
    (l1 ++ l2).drop n = l2.drop (n - l1.length) := by
  rw [List.drop_append_eq_append_drop, List.drop_eq_nil_of_le h]
  simp

/-- Writing the same data at the same position `q` past the 8-byte window at
`p` commutes with replacing the window contents. -/
theorem window_update (su : List Nat) (p n q : Nat) (d : List Nat)
    (hpq : p + 8 ≤ q) (hq : q ≤ su.length) :
    (su.take p ++ leBytes 8 n ++ su.drop (p + 8)).take q ++ d ++
      (su.take p ++ leBytes 8 n ++ su.drop (p + 8)).drop (q + d.length) =
    (su.take q ++ d ++ su.drop (q + d.length)).take p ++ leBytes 8 n ++
      (su.take q ++ d ++ su.drop (q + d.length)).drop (p + 8) := by
  have hA : (su.take p).length = p := by simp; omega
  have hAL : (su.take p ++ leBytes 8 n).length = p + 8 := by simp; omega
  have hQ : (su.take q).length = q := by simp; omega
  have hQD : (su.take q ++ d).length = q + d.length := by simp; omega
  have e1 : (su.take p ++ leBytes 8 n ++ su.drop (p + 8)).take q =
      (su.take p ++ leBytes 8 n) ++ (su.drop (p + 8)).take (q - (p + 8)) := by
    rw [take_append_ge (by rw [hAL]; omega)]
    rw [hAL]
  have e2 : (su.take p ++ leBytes 8 n ++ su.drop (p + 8)).drop (q + d.length) =
      (su.drop (p + 8)).drop (q + d.length - (p + 8)) := by
    rw [drop_append_ge (by rw [hAL]; omega)]
    rw [hAL]
  have e3 : (su.take q ++ d ++ su.drop (q + d.length)).take p = su.take p := by
    rw [List.take_append_eq_append_take]
    rw [hQD]
    rw [show p - (q + d.length) = 0 from by omega]
    rw [List.take_append_eq_append_take]
    rw [hQ]
    rw [show p - q = 0 from by omega]
    rw [List.take_take]
    rw [show min p q = p from by omega]
    simp
  have e4 : (su.take q ++ d ++ su.drop (q + d.length)).drop (p + 8) =
      ((su.drop (p + 8)).take (q - (p + 8)) ++ d) ++ su.drop (q + d.length) := by
    rw [List.drop_append_eq_append_drop]
    rw [hQD]
    rw [show p + 8 - (q + d.length) = 0 from by omega]
    rw [List.drop_append_eq_append_drop]
    rw [hQ]
    rw [show p + 8 - q = 0 from by omega]
    rw [List.drop_take]
    simp
  have e5 : su.drop (q + d.length) = (su.drop (p + 8)).drop (q + d.length - (p + 8)) := by
    rw [List.drop_drop]
    congr 1
    omega
  rw [e1, e2, e3, e4]
  rw [e5]
  simp [List.append_assoc]

/-- `write_raw` preserves the known/unknown simulation relation. -/
theorem ku_raw {p n a : Nat} {up ctxE : List AbsFrame} {sk su : BufferSink}
    (d : List Nat) (h : KU p n a up ctxE sk su) :
    KU p n a up ctxE (sk.send_raw_data d) (su.send_raw_data d) := by
  have hsuc : su.cursor ≤ su.buffer.length := by
    rw [h.cur, h.len]
    exact h.clen
  refine ⟨send_raw_data_good d h.gk, send_raw_data_good d h.gu, ?_, ?_, ?_, ?_, ?_,
    ?_, ?_, ?_, ?_⟩
  · rw [send_raw_data_stack]
    exact h.stk
  · rw [send_raw_data_stack]
    exact h.stu
  · rw [send_raw_data_cursor su d hsuc, send_raw_data_cursor sk d h.clen, h.cur]
  · rw [send_raw_data_length su d hsuc, send_raw_data_length sk d h.clen, h.len, h.cur]
  · have hw := window_update su.buffer p n sk.cursor d h.pcur
      (by rw [h.len]; exact h.clen)
    rw [send_raw_data_spec sk d h.clen, send_raw_data_spec su d hsuc]
    simp only [h.cur]
    rw [show sk.buffer.take sk.cursor ++ d ++ sk.buffer.drop (sk.cursor + d.length) =
        (su.buffer.take p ++ leBytes 8 n ++ su.buffer.drop (p + 8)).take sk.cursor ++ d ++
          (su.buffer.take p ++ leBytes 8 n ++ su.buffer.drop (p + 8)).drop
            (sk.cursor + d.length) from by rw [← h.win]]
    exact hw
  · rw [send_raw_data_length su d hsuc]
    exact le_trans h.plen (Nat.le_max_left _ _)
  · rw [send_raw_data_cursor sk d h.clen]
    have := h.pcur
    omega
  · rw [send_raw_data_cursor sk d h.clen, send_raw_data_length sk d h.clen]
    exact Nat.le_max_right _ _
  · intro q c2 hm
    obtain ⟨h1, h2⟩ := h.pok q c2 hm
    refine ⟨h1, ?_⟩
    rw [send_raw_data_length su d hsuc]
    exact le_trans h2 (Nat.le_max_left _ _)

/-- `start_var_sized (some m)` preserves the simulation, opening one
resolved scope in both runs. -/
theorem ku_start_some {p n a : Nat} {up ctxE : List AbsFrame} {sk su : BufferSink}
    (m : Nat) (h : KU p n a up ctxE sk su) :
    KU p n a (.res :: up) ctxE (sk.start_var_sized (some m))
      (su.start_var_sized (some m)) := by
  have hk := ku_raw (leBytes 8 m) h
  show KU p n a (.res :: up) ctxE (sk.push_resolved m) (su.push_resolved m)
  refine ⟨push_resolved_good m h.gk, push_resolved_good m h.gu, ?_, ?_, ?_, ?_, ?_,
    ?_, ?_, ?_, ?_⟩
  · rw [push_resolved_stack, h.stk]
    simp
  · rw [push_resolved_stack, h.stu]
    simp
  · rw [(push_resolved_fields su m).2, (push_resolved_fields sk m).2]
    exact hk.cur
  · rw [(push_resolved_fields su m).1, (push_resolved_fields sk m).1]
    exact hk.len
  · rw [(push_resolved_fields su m).1, (push_resolved_fields sk m).1]
    exact hk.win
  · rw [(push_resolved_fields su m).1]
    exact hk.plen
  · rw [(push_resolved_fields sk m).2]
    exact hk.pcur
  · rw [(push_resolved_fields sk m).1, (push_resolved_fields sk m).2]
    exact hk.clen
  · intro q c2 hm
    simp at hm
    obtain ⟨h1, h2⟩ := hk.pok q c2 hm
    refine ⟨h1, ?_⟩
    rw [(push_resolved_fields su m).1]
    exact h2

/-- `start_var_sized none` preserves the simulation, opening one pending
scope at the (shared) cursor in both runs. -/
theorem ku_start_none {p n a : Nat} {up ctxE : List AbsFrame} {sk su : BufferSink}
    (h : KU p n a up ctxE sk su) :
    KU p n a (.pend sk.cursor 0 :: up) ctxE (sk.start_var_sized none)
      (su.start_var_sized none) := by
  have hk := ku_raw (leBytes 8 0) h
  show KU p n a (.pend sk.cursor 0 :: up) ctxE sk.push_resolving su.push_resolving
  refine ⟨push_resolving_good h.gk, push_resolving_good h.gu, ?_, ?_, ?_, ?_, ?_,
    ?_, ?_, ?_, ?_⟩
  · rw [push_resolving_stack h.gk, h.stk]
    simp
  · rw [push_resolving_stack h.gu, h.stu, h.cur]
    simp
  · rw [(push_resolving_fields su).2, (push_resolving_fields sk).2]
    exact hk.cur
  · rw [(push_resolving_fields su).1, (push_resolving_fields sk).1]
    exact hk.len
  · rw [(push_resolving_fields su).1, (push_resolving_fields sk).1]
    exact hk.win
  · rw [(push_resolving_fields su).1]
    exact hk.plen
  · rw [(push_resolving_fields sk).2]
    exact hk.pcur
  · rw [(push_resolving_fields sk).1, (push_resolving_fields sk).2]
    exact hk.clen
  · intro q c2 hm
    simp at hm
    rcases hm with hm | hm
    · obtain ⟨hq, hc⟩ := hm
      subst hq
      constructor
      · exact h.pcur
      · rw [(push_resolving_fields su).1, BufferSink.send_usize,
          send_raw_data_length su (leBytes 8 0) (by rw [h.cur, h.len]; exact h.clen)]
        simp [h.cur]
    · obtain ⟨h1, h2⟩ := h.pok q c2 hm
      refine ⟨h1, ?_⟩
      rw [(push_resolving_fields su).1]
      exact le_trans h2 (by
        rw [BufferSink.send_usize,
          send_raw_data_length su (leBytes 8 0) (by rw [h.cur, h.len]; exact h.clen)]
        exact Nat.le_max_left _ _)

/-- `advance_var_sized` at depth 0: counts one element in the unknown run,
no-op in the known run. -/
theorem ku_advance_nil {p n a : Nat} {ctxE : List AbsFrame} {sk su : BufferSink}
    (h : KU p n a [] ctxE sk su) :
    KU p n (a + 1) [] ctxE (sk.advance_var_sized) (su.advance_var_sized) := by
  have hfk := inc_size_fields sk
  have hfu := inc_size_fields su
  have hsk := inc_size_stack h.gk
  have hsu := inc_size_stack h.gu
  unfold BufferSink.advance_var_sized
  refine ⟨inc_size_good h.gk, inc_size_good h.gu, ?_, ?_, ?_, ?_, ?_, ?_, ?_, ?_, ?_⟩
  · rw [hsk, h.stk]
    simp [incTop]
  · rw [hsu, h.stu]
    simp [incTop]
  · rw [hfu.2.1, hfk.2.1]
    exact h.cur
  · rw [hfu.1, hfk.1]
    exact h.len
  · rw [hfu.1, hfk.1]
    exact h.win
  · rw [hfu.1]
    exact h.plen
  · rw [hfk.2.1]
    exact h.pcur
  · rw [hfk.1, hfk.2.1]
    exact h.clen
  · intro q c2 hm
    simp at hm

/-- `advance_var_sized` below depth 0 acts identically on both runs. -/
theorem ku_advance_cons {p n a : Nat} {f : AbsFrame} {up2 ctxE : List AbsFrame}
    {sk su : BufferSink} (h : KU p n a (f :: up2) ctxE sk su) :
    KU p n a (incTop (f :: up2)) ctxE (sk.advance_var_sized) (su.advance_var_sized) := by
  have hfk := inc_size_fields sk
  have hfu := inc_size_fields su
  have hsk := inc_size_stack h.gk
  have hsu := inc_size_stack h.gu
  unfold BufferSink.advance_var_sized
  refine ⟨inc_size_good h.gk, inc_size_good h.gu, ?_, ?_, ?_, ?_, ?_, ?_, ?_, ?_, ?_⟩
  · rw [hsk, h.stk]
    cases f <;> simp [incTop]
  · rw [hsu, h.stu]
    cases f <;> simp [incTop]
  · rw [hfu.2.1, hfk.2.1]
    exact h.cur
  · rw [hfu.1, hfk.1]
    exact h.len
  · rw [hfu.1, hfk.1]
    exact h.win
  · rw [hfu.1]
    exact h.plen
  · rw [hfk.2.1]
    exact h.pcur
  · rw [hfk.1, hfk.2.1]
    exact h.clen
  · intro q c2 hm
    rw [hfu.1]
    cases f with
    | res =>
      simp [incTop] at hm
      exact h.pok q c2 (by simp [hm])
    | pend q2 n2 =>
      simp [incTop] at hm
      rcases hm with hm | hm
      · obtain ⟨hq, _⟩ := hm
        subst hq
        exact h.pok q n2 (by simp)
      · exact h.pok q c2 (by simp [hm])

/-- `end_var_sized` closing a resolved scope preserves the simulation. -/
theorem ku_end_res {p n a : Nat} {up ctxE : List AbsFrame} {sk su : BufferSink}
    (h : KU p n a (.res :: up) ctxE sk su) :
    KU p n a up ctxE (sk.end_var_sized) (su.end_var_sized) := by
  have hpk := pop_res h.gk (t := up ++ .res :: ctxE) (by rw [h.stk]; simp)
  have hpu := pop_res h.gu (t := up ++ .pend p a :: ctxE) (by rw [h.stu]; simp)
  show KU p n a up ctxE sk.pop su.pop
  refine ⟨hpk.2.2.2, hpu.2.2.2, hpk.1, hpu.1, ?_, ?_, ?_, ?_, ?_, ?_, ?_⟩
  · rw [hpu.2.2.1, hpk.2.2.1]
    exact h.cur
  · rw [hpu.2.1, hpk.2.1]
    exact h.len
  · rw [hpu.2.1, hpk.2.1]
    exact h.win
  · rw [hpu.2.1]
    exact h.plen
  · rw [hpk.2.2.1]
    exact h.pcur
  · rw [hpk.2.1, hpk.2.2.1]
    exact h.clen
  · intro q c2 hm
    rw [hpu.2.1]
    exact h.pok q c2 (by simp [hm])

/-- `end_var_sized` closing a pending scope back-patches its placeholder
identically in both runs and preserves the simulation. -/
theorem ku_end_pend {p n a q c : Nat} {up ctxE : List AbsFrame} {sk su : BufferSink}
    (h : KU p n a (.pend q c :: up) ctxE sk su) :
    KU p n a up ctxE (sk.end_var_sized) (su.end_var_sized) := by
  obtain ⟨hq1, hq2⟩ := h.pok q c (by simp)
  have hqk : q + 8 ≤ sk.buffer.length := by rw [← h.len]; exact hq2
  have hpk := pop_pend (q := q) (c := c) (t := up ++ .res :: ctxE) h.gk
    (by rw [h.stk]; simp) hqk
  have hpu := pop_pend (q := q) (c := c) (t := up ++ .pend p a :: ctxE) h.gu
    (by rw [h.stu]; simp) hq2
  show KU p n a up ctxE sk.pop su.pop
  refine ⟨hpk.2.2.2.2, hpu.2.2.2.2, hpk.1, hpu.1, ?_, ?_, ?_, ?_, ?_, ?_, ?_⟩
  · rw [hpu.2.2.1, hpk.2.2.1]
    exact h.cur
  · rw [hpu.2.2.2.1, hpk.2.2.2.1]
    exact h.len
  · rw [hpk.2.1, hpu.2.1]
    have hw := window_update su.buffer p n q (leBytes 8 c) hq1 (by omega)
    rw [leBytes_length] at hw
    rw [show sk.buffer.take q ++ leBytes 8 c ++ sk.buffer.drop (q + 8) =
        (su.buffer.take p ++ leBytes 8 n ++ su.buffer.drop (p + 8)).take q ++
          leBytes 8 c ++
          (su.buffer.take p ++ leBytes 8 n ++ su.buffer.drop (p + 8)).drop (q + 8)
        from by rw [← h.win]]
    exact hw
  · rw [hpu.2.2.2.1]
    exact h.plen
  · rw [hpk.2.2.1]
    exact h.pcur
  · rw [hpk.2.2.1, hpk.2.2.2.1]
    exact h.clen
  · intro q2 c3 hm
    rw [hpu.2.2.2.1]
    exact h.pok q2 c3 (by simp [hm])

theorem incTop_length (l : List AbsFrame) : (incTop l).length = l.length := by
  cases l with
  | nil => rfl
  | cons f t => cases f <;> simp [incTop]

theorem opsScan_append (a b : List Op) : ∀ d : Nat, opsScan d (a ++ b) =
    (opsScan d a).bind
      (fun r => (opsScan r.1 b).map (fun r2 => (r2.1, r.2 + r2.2))) := by
  induction a with
  | nil =>
    intro d
    simp only [List.nil_append]
    cases hb : opsScan d b with
    | none => simp [opsScan, hb]
    | some r2 => simp [opsScan, hb]
  | cons op rest ih =>
    intro d
    cases op with
    | raw dd => simp only [List.cons_append, opsScan]; exact ih d
    | startVar size => simp only [List.cons_append, opsScan]; exact ih (d + 1)
    | advanceVar =>
      cases d with
      | zero =>
        simp only [List.cons_append, opsScan, List.append_eq]
        rw [ih 0]
        cases h1 : opsScan 0 rest with
        | none => simp
        | some r1 =>
          obtain ⟨d1, c1⟩ := r1
          cases h2 : opsScan d1 b with
          | none => simp [h2]
          | some r2 =>
            obtain ⟨d2, c2⟩ := r2
            simp [h2]
            omega
      | succ d2 => simp only [List.cons_append, opsScan]; exact ih (d2 + 1)
    | endVar =>
      cases d with
      | zero => simp [opsScan]
      | succ d2 => simp only [List.cons_append, opsScan]; exact ih d2

/-- The sequence body (one `advance_var_sized` before each element trace)
is balanced and counts exactly one depth-0 advance per element. -/
theorem bodyScan (elems : List (List Op))
    (he : ∀ e ∈ elems, opsScan 0 e = some (0, 0)) :
    opsScan 0 ((elems.map (fun e => Op.advanceVar :: e)).flatten) =
      some (0, elems.length) := by
  induction elems with
  | nil => simp [opsScan]
  | cons e es ih =>
    have hee : opsScan 0 e = some (0, 0) := he e (by simp)
    have ihh := ih (fun e2 hm => he e2 (by simp [hm]))
    simp only [List.map_cons, List.flatten_cons, List.cons_append]
    simp only [opsScan]
    rw [opsScan_append]
    rw [hee]
    simp [ihh]

/-- Running a balanced body trace through both runs preserves the
simulation, closing all scopes opened inside it and adding its depth-0
advance count to the pending length. -/
theorem body_sim : ∀ (ops : List Op) (d k a p n : Nat) (up ctxE : List AbsFrame)
    (sk su : BufferSink), opsScan d ops = some (0, k) → up.length = d →
    KU p n a up ctxE sk su →
    KU p n (a + k) [] ctxE (runOps sk ops) (runOps su ops) := by
  intro ops
  induction ops with
  | nil =>
    intro d k a p n up ctxE sk su hscan hlen h
    simp only [opsScan, Option.some_inj, Prod.mk.injEq] at hscan
    obtain ⟨hd, hk⟩ := hscan
    subst hd
    rw [← hk]
    have hup : up = [] := List.length_eq_zero.mp hlen
    subst hup
    simpa [runOps] using h
  | cons op rest ih =>
    intro d k a p n up ctxE sk su hscan hlen h
    cases op with
    | raw dd =>
      rw [runOps]
      exact ih d k a p n up ctxE _ _ (by simpa [opsScan] using hscan) hlen
        (ku_raw dd h)
    | startVar size =>
      have hscan2 : opsScan (d + 1) rest = some (0, k) := by
        simpa [opsScan] using hscan
      cases size with
      | some m =>
        rw [runOps]
        exact ih (d + 1) k a p n (.res :: up) ctxE _ _ hscan2 (by simp [hlen])
          (ku_start_some m h)
      | none =>
        rw [runOps]
        exact ih (d + 1) k a p n (.pend sk.cursor 0 :: up) ctxE _ _ hscan2
          (by simp [hlen]) (ku_start_none h)
    | advanceVar =>
      cases d with
      | zero =>
        have hup : up = [] := List.length_eq_zero.mp hlen
        subst hup
        simp only [opsScan] at hscan
        cases hr : opsScan 0 rest with
        | none => rw [hr] at hscan; simp at hscan
        | some r1 =>
          obtain ⟨d1, k1⟩ := r1
          rw [hr] at hscan
          simp at hscan
          obtain ⟨hd1, hk1⟩ := hscan
          subst hd1
          have hres := ih 0 k1 (a + 1) p n [] ctxE _ _ hr rfl (ku_advance_nil h)
          rw [runOps]
          rw [show a + k = a + 1 + k1 from by omega]
          exact hres
      | succ d2 =>
        have hscan2 : opsScan (d2 + 1) rest = some (0, k) := by
          simpa [opsScan] using hscan
        cases up with
        | nil => simp at hlen
        | cons f up2 =>
          rw [runOps]
          exact ih (d2 + 1) k a p n (incTop (f :: up2)) ctxE _ _ hscan2
            (by rw [incTop_length]; exact hlen) (ku_advance_cons h)
    | endVar =>
      cases d with
      | zero => simp [opsScan] at hscan
      | succ d2 =>
        have hscan2 : opsScan d2 rest = some (0, k) := by
          simpa [opsScan] using hscan
        cases up with
        | nil => simp at hlen
        | cons f up2 =>
          cases f with
          | res =>
            rw [runOps]
            exact ih d2 k a p n up2 ctxE _ _ hscan2 (by simpa using hlen)
              (ku_end_res h)
          | pend q c =>
            rw [runOps]
            exact ih d2 k a p n up2 ctxE _ _ hscan2 (by simpa using hlen)
              (ku_end_pend h)

/-- Take/drop of an 8-byte splice at the cursor recover the surroundings. -/
theorem splice_take_drop (buf : List Nat) (c : Nat) (w1 : List Nat)
    (hw : w1.length = 8) (hc : c ≤ buf.length) :
    (buf.take c ++ w1 ++ buf.drop (c + 8)).take c = buf.take c ∧
    (buf.take c ++ w1 ++ buf.drop (c + 8)).drop (c + 8) = buf.drop (c + 8) := by
  have hX : (buf.take c).length = c := by simp; omega
  have hXW : (buf.take c ++ w1).length = c + 8 := by simp [hw]; omega
  constructor
  · rw [List.take_append_eq_append_take]
    rw [hXW]
    rw [show c - (c + 8) = 0 from by omega]
    rw [List.take_append_eq_append_take]
    rw [hX]
    rw [show c - c = 0 from by omega]
    rw [List.take_take]
    simp
  · rw [drop_append_ge (by omega)]
    rw [hXW]
    simp

/-- Length-hint invariance of the buffer sink: running the serializer's
sequence trace with the known length hint or the unknown one produces the
same bytes and leaves the cursor at the same place. -/
theorem length_hint_core (elems : List (List Op)) (sink : BufferSink)
    (hg : GoodStack sink) (hc : sink.cursor ≤ sink.buffer.length)
    (he : ∀ e ∈ elems, opsScan 0 e = some (0, 0)) :
    (runOps sink (seqOps (some elems.length) elems)).buffer =
      (runOps sink (seqOps none elems)).buffer ∧
    (runOps sink (seqOps (some elems.length) elems)).cursor =
      (runOps sink (seqOps none elems)).cursor := by
  have hbody := bodyScan elems he
  have hkcur : (sink.push_resolved elems.length).cursor = sink.cursor + 8 := by
    rw [(push_resolved_fields sink _).2, BufferSink.send_usize,
      send_raw_data_cursor sink _ hc, leBytes_length]
  have hucur : (sink.push_resolving).cursor = sink.cursor + 8 := by
    rw [(push_resolving_fields sink).2, BufferSink.send_usize,
      send_raw_data_cursor sink _ hc, leBytes_length]
  have hkbuf : (sink.push_resolved elems.length).buffer =
      sink.buffer.take sink.cursor ++ leBytes 8 elems.length ++
        sink.buffer.drop (sink.cursor + 8) := by
    rw [(push_resolved_fields sink _).1, BufferSink.send_usize,
      send_raw_data_spec sink _ hc]
    simp
  have hubuf : (sink.push_resolving).buffer =
      sink.buffer.take sink.cursor ++ leBytes 8 0 ++
        sink.buffer.drop (sink.cursor + 8) := by
    rw [(push_resolving_fields sink).1, BufferSink.send_usize,
      send_raw_data_spec sink _ hc]
    simp
  have hsp := splice_take_drop sink.buffer sink.cursor (leBytes 8 0)
    (leBytes_length 8 0) hc
  have hku0 : KU sink.cursor elems.length 0 [] sink.stack
      (sink.start_var_sized (some elems.length)) (sink.start_var_sized none) := by
    refine ⟨push_resolved_good _ hg, push_resolving_good hg, ?_, ?_, ?_, ?_, ?_,
      ?_, ?_, ?_, ?_⟩
    · show (sink.push_resolved elems.length).stack = _
      rw [push_resolved_stack]
      simp
    · show (sink.push_resolving).stack = _
      rw [push_resolving_stack hg]
      simp
    · show (sink.push_resolving).cursor = (sink.push_resolved elems.length).cursor
      rw [hkcur, hucur]
    · show (sink.push_resolving).buffer.length =
        (sink.push_resolved elems.length).buffer.length
      rw [hkbuf, hubuf]
      simp
    · show (sink.push_resolved elems.length).buffer =
        List.take sink.cursor (sink.push_resolving).buffer ++ leBytes 8 elems.length ++
          List.drop (sink.cursor + 8) (sink.push_resolving).buffer
      rw [hkbuf, hubuf, hsp.1, hsp.2]
    · show sink.cursor + 8 ≤ (sink.push_resolving).buffer.length
      rw [hubuf]
      simp
      omega
    · show sink.cursor + 8 ≤ (sink.push_resolved elems.length).cursor
      rw [hkcur]
    · show (sink.push_resolved elems.length).cursor ≤
        (sink.push_resolved elems.length).buffer.length
      rw [hkcur, hkbuf]
      simp
      omega
    · intro q c2 hm
      simp at hm
  have hsim := body_sim ((elems.map (fun e => Op.advanceVar :: e)).flatten) 0
    elems.length 0 sink.cursor elems.length [] sink.stack
    (sink.start_var_sized (some elems.length)) (sink.start_var_sized none)
    hbody rfl hku0
  have hpk := pop_res hsim.gk (t := sink.stack) (by rw [hsim.stk]; simp)
  have hpu := pop_pend (q := sink.cursor) (c := 0 + elems.length) (t := sink.stack)
    hsim.gu (by rw [hsim.stu]; simp) hsim.plen
  have hrun1 : runOps sink (seqOps (some elems.length) elems) =
      (runOps (sink.start_var_sized (some elems.length))
        ((elems.map (fun e => Op.advanceVar :: e)).flatten)).pop := by
    simp only [seqOps, runOps, List.append_eq, runOps_append_ops,
      BufferSink.applyOp, BufferSink.end_var_sized]
  have hrun2 : runOps sink (seqOps none elems) =
      (runOps (sink.start_var_sized none)
        ((elems.map (fun e => Op.advanceVar :: e)).flatten)).pop := by
    simp only [seqOps, runOps, List.append_eq, runOps_append_ops,
      BufferSink.applyOp, BufferSink.end_var_sized]
  rw [hrun1, hrun2]
  constructor
  · rw [hpk.2.1, hpu.2.1, hsim.win]
    simp
  · rw [hpk.2.2.1, hpu.2.2.1, hsim.cur]

/-- Running a balanced trace from an appending sink empties the scope stack
again and leaves the cursor at the end of the buffer. -/
theorem balanced_run : ∀ (ops : List Op) (d k : Nat) (up : List AbsFrame)
    (s : BufferSink), opsScan d ops = some (0, k) → up.length = d →
    GoodStack s → s.stack = up → s.cursor = s.buffer.length →
    (∀ q c, AbsFrame.pend q c ∈ up → q + 8 ≤ s.buffer.length) →
    GoodStack (runOps s ops) ∧ (runOps s ops).stack = [] ∧
    (runOps s ops).cursor = (runOps s ops).buffer.length := by
  intro ops
  induction ops with
  | nil =>
    intro d k up s hscan hlen hg hs hc hp
    simp only [opsScan, Option.some_inj, Prod.mk.injEq] at hscan
    obtain ⟨hd, _⟩ := hscan
    subst hd
    have hup : up = [] := List.length_eq_zero.mp hlen
    subst hup
    exact ⟨hg, by simpa [runOps] using hs, by simpa [runOps] using hc⟩
  | cons op rest ih =>
    intro d k up s hscan hlen hg hs hc hp
    cases op with
    | raw dd =>
      rw [runOps]
      have hstep := send_raw_data_append s dd hc
      refine ih d k up _ (by simpa [opsScan] using hscan) hlen
        (send_raw_data_good dd hg)
        (by show (s.send_raw_data dd).stack = up
            rw [send_raw_data_stack]; exact hs)
        (by simp only [BufferSink.applyOp]; rw [hstep]; simp) ?_
      intro q c2 hm
      simp only [BufferSink.applyOp]
      rw [hstep]
      have := hp q c2 hm
      simp
      omega
    | startVar size =>
      have hscan2 : opsScan (d + 1) rest = some (0, k) := by
        simpa [opsScan] using hscan
      cases size with
      | some m =>
        rw [runOps]
        have hbuf : (s.push_resolved m).buffer = s.buffer ++ leBytes 8 m := by
          rw [(push_resolved_fields s m).1, BufferSink.send_usize,
            send_raw_data_append s _ hc]
        have hcur : (s.push_resolved m).cursor = s.buffer.length + 8 := by
          rw [(push_resolved_fields s m).2, BufferSink.send_usize,
            send_raw_data_append s _ hc]
          simp
        refine ih (d + 1) k (.res :: up) _ hscan2 (by simp [hlen])
          (push_resolved_good m hg) (by rw [show (s.applyOp (.startVar (some m))) =
            s.push_resolved m from rfl, push_resolved_stack, hs]) ?_ ?_
        · show (s.push_resolved m).cursor = (s.push_resolved m).buffer.length
          rw [hbuf, hcur]
          simp
        · intro q c2 hm
          simp at hm
          show q + 8 ≤ (s.push_resolved m).buffer.length
          rw [hbuf]
          have := hp q c2 hm
          simp
          omega
      | none =>
        rw [runOps]
        have hbuf : (s.push_resolving).buffer = s.buffer ++ leBytes 8 0 := by
          rw [(push_resolving_fields s).1, BufferSink.send_usize,
            send_raw_data_append s _ hc]
        have hcur : (s.push_resolving).cursor = s.buffer.length + 8 := by
          rw [(push_resolving_fields s).2, BufferSink.send_usize,
            send_raw_data_append s _ hc]
          simp
        refine ih (d + 1) k (.pend s.cursor 0 :: up) _ hscan2 (by simp [hlen])
          (push_resolving_good hg) (by rw [show (s.applyOp (.startVar none)) =
            s.push_resolving from rfl, push_resolving_stack hg, hs]) ?_ ?_
        · show (s.push_resolving).cursor = (s.push_resolving).buffer.length
          rw [hbuf, hcur]
          simp
        · intro q c2 hm
          simp at hm
          show q + 8 ≤ (s.push_resolving).buffer.length
          rw [hbuf]
          rcases hm with hm | hm
          · obtain ⟨hq, _⟩ := hm
            subst hq
            simp [hc]
          · have := hp q c2 hm
            simp
            omega
    | advanceVar =>
      have hfields := inc_size_fields s
      have hstack := inc_size_stack hg
      cases d with
      | zero =>
        have hup : up = [] := List.length_eq_zero.mp hlen
        subst hup
        simp only [opsScan] at hscan
        cases hr : opsScan 0 rest with
        | none => rw [hr] at hscan; simp at hscan
        | some r1 =>
          obtain ⟨d1, k1⟩ := r1
          rw [hr] at hscan
          simp at hscan
          obtain ⟨hd1, _⟩ := hscan
          subst hd1
          rw [runOps]
          refine ih 0 k1 [] _ hr rfl (inc_size_good hg) ?_ ?_ (by simp)
          · show (s.inc_size).stack = []
            rw [hstack, hs]
            rfl
          · show (s.inc_size).cursor = (s.inc_size).buffer.length
            rw [hfields.1, hfields.2.1]
            exact hc
      | succ d2 =>
        have hscan2 : opsScan (d2 + 1) rest = some (0, k) := by
          simpa [opsScan] using hscan
        cases up with
        | nil => simp at hlen
        | cons f up2 =>
          rw [runOps]
          refine ih (d2 + 1) k (incTop (f :: up2)) _ hscan2
            (by rw [incTop_length]; exact hlen) (inc_size_good hg) ?_ ?_ ?_
          · show (s.inc_size).stack = incTop (f :: up2)
            rw [hstack, hs]
          · show (s.inc_size).cursor = (s.inc_size).buffer.length
            rw [hfields.1, hfields.2.1]
            exact hc
          · intro q c2 hm
            show q + 8 ≤ (s.inc_size).buffer.length
            rw [hfields.1]
            cases f with
            | res =>
              rw [show incTop (AbsFrame.res :: up2) = AbsFrame.res :: up2
                from rfl] at hm
              exact hp q c2 hm
            | pend q2 n2 =>
              rw [show incTop (AbsFrame.pend q2 n2 :: up2) =
                AbsFrame.pend q2 (n2 + 1) :: up2 from rfl] at hm
              rcases List.mem_cons.mp hm with hm | hm
              · have hq : q = q2 := (AbsFrame.pend.inj hm).1
                subst hq
                exact hp q n2 (by simp)
              · exact hp q c2 (List.mem_cons_of_mem _ hm)
    | endVar =>
      cases d with
      | zero => simp [opsScan] at hscan
      | succ d2 =>
        have hscan2 : opsScan d2 rest = some (0, k) := by
          simpa [opsScan] using hscan
        cases up with
        | nil => simp at hlen
        | cons f up2 =>
          cases f with
          | res =>
            have hpop := pop_res hg (t := up2) (by rw [hs])
            rw [runOps]
            refine ih d2 k up2 _ hscan2 (by simpa using hlen) hpop.2.2.2
              (by show s.pop.stack = up2; exact hpop.1) ?_ ?_
            · show s.pop.cursor = s.pop.buffer.length
              rw [hpop.2.2.1, hpop.2.1]
              exact hc
            · intro q c2 hm
              show q + 8 ≤ s.pop.buffer.length
              rw [hpop.2.1]
              exact hp q c2 (by simp [hm])
          | pend q c =>
            have hq : q + 8 ≤ s.buffer.length := hp q c (by simp)
            have hpop := pop_pend (q := q) (c := c) (t := up2) hg (by rw [hs]) hq
            rw [runOps]
            refine ih d2 k up2 _ hscan2 (by simpa using hlen) hpop.2.2.2.2
              (by show s.pop.stack = up2; exact hpop.1) ?_ ?_
            · show s.pop.cursor = s.pop.buffer.length
              rw [hpop.2.2.1, hpop.2.2.2.1]
              exact hc
            · intro q2 c2 hm
              show q2 + 8 ≤ s.pop.buffer.length
              rw [hpop.2.2.2.1]
              exact hp q2 c2 (by simp [hm])

/-! ## Claims -/

/-- C1: for every value `v` of a supported shape, serializing `v` with the
buffer-sink serializer and then decoding the resulting bytes with the same
schema yields exactly `v` (with the whole input consumed). -/
theorem claim_C1_round_trip (s : Shape) (v : Val) (h : good s v = true) :
    decodeVal s (BufferSource.new ((runOps BufferSink.new (emit v)).buffer)) =
      .ok (v, ⟨(runOps BufferSink.new (emit v)).buffer,
        (runOps BufferSink.new (emit v)).buffer.length⟩) := by
  rw [serialize_buffer_eq]
  exact decode_encode s v h

theorem claim_C1_round_trip_witness :
    good (Shape.sseq (.sprim 2))
      (Val.vseq (.cons (.vprim 2 700) (.cons (.vprim 2 3) .nil))) = true ∧
    decodeVal (Shape.sseq (.sprim 2))
      (BufferSource.new ((runOps BufferSink.new
        (emit (Val.vseq (.cons (.vprim 2 700) (.cons (.vprim 2 3) .nil))))).buffer)) =
      .ok (Val.vseq (.cons (.vprim 2 700) (.cons (.vprim 2 3) .nil)),
        ⟨(runOps BufferSink.new
            (emit (Val.vseq (.cons (.vprim 2 700) (.cons (.vprim 2 3) .nil))))).buffer,
          (runOps BufferSink.new
            (emit (Val.vseq (.cons (.vprim 2 700) (.cons (.vprim 2 3) .nil))))).buffer.length⟩) :=
  ⟨by decide, claim_C1_round_trip _ _ (by decide)⟩

/-- C2: the claim says `end_var_sized` in Buffer mode at depth 0 sends the
computed outer length to the queue FIRST, then the buffered bytes, and
returns the sink to Channel mode.  The code instead calls
`self.send_usize(outer_seq_size)`, which dispatches through the
still-`Buffer` multiplexing and APPENDS the length to the fallback buffer,
so the queue receives content first and the length last, and the
multiplexing is never reset to `Channel`.  Witnessed here on the trace of a
one-element unknown-length sequence with the single content byte `0xAA`:
the queue gets `0xAA` followed by the 8 length bytes (not the length first),
and the sink stays in Buffer mode. -/
theorem claim_C2_end_var_stream :
    (runChannelOps ChannelSink.new
        [.startVar none, .advanceVar, .raw [0xAA], .endVar]).sent =
      [0xAA] ++ leBytes 8 1 ∧
    (runChannelOps ChannelSink.new
        [.startVar none, .advanceVar, .raw [0xAA], .endVar]).multiplexing =
      .buffer 1 0 ∧
    (runChannelOps ChannelSink.new
        [.startVar none, .advanceVar, .raw [0xAA], .endVar]).sent ≠
      leBytes 8 1 ++ [0xAA] := by
  decide

/-- C3: encoding a sequence with the unknown length hint produces
byte-identical buffer-sink output to encoding it with the known hint
`some n`, for any element traces that are balanced and keep their
`advance_var_sized` calls inside their own containers (as serde serializers
do), from any well-formed sink state. -/
theorem claim_C3_length_hint (elems : List (List Op)) (sink : BufferSink)
    (hg : GoodStack sink) (hc : sink.cursor ≤ sink.buffer.length)
    (he : ∀ e ∈ elems, elemOps e = true) :
    (runOps sink (seqOps (some elems.length) elems)).buffer =
      (runOps sink (seqOps none elems)).buffer := by
  refine (length_hint_core elems sink hg hc ?_).1
  intro e hm
  have h2 := he e hm
  simpa [elemOps] using h2

theorem claim_C3_length_hint_witness :
    GoodStack BufferSink.new ∧
    BufferSink.new.cursor ≤ BufferSink.new.buffer.length ∧
    (∀ e ∈ [[Op.raw [1]], [Op.raw [2, 3]]], elemOps e = true) ∧
    (runOps BufferSink.new
        (seqOps (some [[Op.raw [1]], [Op.raw [2, 3]]].length)
          [[Op.raw [1]], [Op.raw [2, 3]]])).buffer =
      (runOps BufferSink.new
        (seqOps none [[Op.raw [1]], [Op.raw [2, 3]]])).buffer :=
  ⟨⟨fun _ => rfl, by simp [BufferSink.new]⟩, by decide, by decide,
    claim_C3_length_hint [[Op.raw [1]], [Op.raw [2, 3]]] BufferSink.new
      ⟨fun _ => rfl, by simp [BufferSink.new]⟩ (by decide) (by decide)⟩

/-- C4 (amended): the claim as stated fails for a sink made by
`BufferSink::with_buffer` on a non-empty buffer (used by
`serialize_on_buffer`), whose cursor starts at 0, not at the buffer end
(see the counterexample).  Amended with the extra precondition that the
sink starts with its cursor at the buffer end: after any balanced trace the
routine stack is back to the idle state and the cursor equals the buffer
length. -/
theorem claim_C4_balanced_idle (ops : List Op) (sink : BufferSink)
    (hb : balancedOps ops = true)
    (hcur : sink.current_routine = .resolved 0)
    (hpar : sink.parent_routines = [])
    (hc : sink.cursor = sink.buffer.length) :
    (runOps sink ops).current_routine = .resolved 0 ∧
    (runOps sink ops).parent_routines = [] ∧
    (runOps sink ops).cursor = (runOps sink ops).buffer.length := by
  unfold balancedOps at hb
  cases hscan : opsScan 0 ops with
  | none => rw [hscan] at hb; simp at hb
  | some r =>
    obtain ⟨d, k⟩ := r
    rw [hscan] at hb
    cases d with
    | succ d2 => simp at hb
    | zero =>
      have hstack : sink.stack = [] := by
        simp [BufferSink.stack, hcur, hpar, expandRoutine]
      have hgood : GoodStack sink := ⟨fun _ => hpar, by simp [hpar]⟩
      obtain ⟨hg2, hs2, hc2⟩ :=
        balanced_run ops 0 k [] sink hscan rfl hgood hstack hc (by simp)
      obtain ⟨h1, h2⟩ := stack_nil_inv hg2 hs2
      exact ⟨h1, h2, hc2⟩

theorem claim_C4_balanced_idle_witness :
    balancedOps [Op.startVar none, Op.advanceVar, Op.raw [7], Op.endVar] = true ∧
    BufferSink.new.current_routine = .resolved 0 ∧
    BufferSink.new.parent_routines = [] ∧
    BufferSink.new.cursor = BufferSink.new.buffer.length ∧
    (runOps BufferSink.new
        [Op.startVar none, Op.advanceVar, Op.raw [7], Op.endVar]).current_routine =
      .resolved 0 ∧
    (runOps BufferSink.new
        [Op.startVar none, Op.advanceVar, Op.raw [7], Op.endVar]).parent_routines = [] ∧
    (runOps BufferSink.new
        [Op.startVar none, Op.advanceVar, Op.raw [7], Op.endVar]).cursor =
      (runOps BufferSink.new
        [Op.startVar none, Op.advanceVar, Op.raw [7], Op.endVar]).buffer.length := by
  refine ⟨by decide, rfl, rfl, rfl, ?_⟩
  exact claim_C4_balanced_idle
    [Op.startVar none, Op.advanceVar, Op.raw [7], Op.endVar]
    BufferSink.new (by decide) rfl rfl rfl

/-- C4 counterexample: a balanced trace (a single raw write, no traversal
at all) run on `BufferSink::with_buffer [1, 2, 3]` — exactly the sink
`serialize_on_buffer` builds on a preloaded buffer — ends with the routine
stack idle but the cursor (1) strictly below the buffer length (3),
refuting the claimed invariant for that constructor. -/
theorem claim_C4_counterexample :
    balancedOps [Op.raw [9]] = true ∧
    (runOps (BufferSink.with_buffer [1, 2, 3]) [Op.raw [9]]).current_routine =
      .resolved 0 ∧
    (runOps (BufferSink.with_buffer [1, 2, 3]) [Op.raw [9]]).parent_routines = [] ∧
    ¬ (runOps (BufferSink.with_buffer [1, 2, 3]) [Op.raw [9]]).cursor =
      (runOps (BufferSink.with_buffer [1, 2, 3]) [Op.raw [9]]).buffer.length := by
  decide

/-- C5: `send_raw_data` splits the data at the buffer end: the result is
the old bytes before the cursor, then the data (overwriting in place up to
the old buffer end, appending past it), then the old bytes after the
overwritten window; the cursor advances by exactly the data length, the new
buffer length is the maximum of the old length and cursor + data length,
and whenever the write extended the buffer the cursor ends at the new
buffer end. -/
theorem claim_C5_send_raw_data (s : BufferSink) (data : List Nat)
    (h : s.cursor ≤ s.buffer.length) :
    (s.send_raw_data data).buffer =
      s.buffer.take s.cursor ++ data ++ s.buffer.drop (s.cursor + data.length) ∧
    (s.send_raw_data data).cursor = s.cursor + data.length ∧
    (s.send_raw_data data).buffer.length =
      max s.buffer.length (s.cursor + data.length) ∧
    (s.buffer.length < s.cursor + data.length →
      (s.send_raw_data data).cursor = (s.send_raw_data data).buffer.length) := by
  have hs := send_raw_data_spec s data h
  rw [hs]
  refine ⟨rfl, rfl, ?_, ?_⟩
  · show (s.buffer.take s.cursor ++ data ++
        s.buffer.drop (s.cursor + data.length)).length =
      max s.buffer.length (s.cursor + data.length)
    simp only [List.length_append, List.length_take, List.length_drop]
    omega
  · intro hext
    show s.cursor + data.length = (s.buffer.take s.cursor ++ data ++
        s.buffer.drop (s.cursor + data.length)).length
    simp only [List.length_append, List.length_take, List.length_drop]
    omega

theorem claim_C5_send_raw_data_witness :
    (BufferSink.mk [1, 2, 3] 1 (.resolved 0) []).cursor ≤
      (BufferSink.mk [1, 2, 3] 1 (.resolved 0) []).buffer.length ∧
    (((BufferSink.mk [1, 2, 3] 1 (.resolved 0) []).send_raw_data [8, 9, 10]).buffer =
      ([1, 2, 3] : List Nat).take 1 ++ [8, 9, 10] ++ ([1, 2, 3] : List Nat).drop (1 + 3) ∧
    ((BufferSink.mk [1, 2, 3] 1 (.resolved 0) []).send_raw_data [8, 9, 10]).cursor = 1 + 3 ∧
    ((BufferSink.mk [1, 2, 3] 1 (.resolved 0) []).send_raw_data [8, 9, 10]).buffer.length =
      max 3 (1 + 3) ∧
    (3 < 1 + 3 →
      ((BufferSink.mk [1, 2, 3] 1 (.resolved 0) []).send_raw_data [8, 9, 10]).cursor =
        ((BufferSink.mk [1, 2, 3] 1 (.resolved 0) []).send_raw_data [8, 9, 10]).buffer.length)) :=
  ⟨by decide, claim_C5_send_raw_data (BufferSink.mk [1, 2, 3] 1 (.resolved 0) []) [8, 9, 10] (by decide)⟩

/-- C6: `recv_raw_data` either fills the request exactly — the buffer
source returns precisely the next `n` bytes and advances the cursor by `n`
— or fails with `PrematureEof` consuming nothing (errors return no updated
source); the streaming source fails with `PrematureEof` when the request
queue is disconnected and when the response queue is closed. -/
theorem claim_C6_recv_raw_data :
    (∀ (src : BufferSource) (n : Nat),
      (src.cursor + n ≤ src.buffer.length →
        src.recv_raw_data n =
          .ok ((src.buffer.drop src.cursor).take n, ⟨src.buffer, src.cursor + n⟩) ∧
        ((src.buffer.drop src.cursor).take n).length = n) ∧
      (src.buffer.length < src.cursor + n →
        src.recv_raw_data n = .error .prematureEof)) ∧
    (∀ (src : ChannelSource) (n : Nat),
      (src.request_open = false → src.recv_raw_data n = .error .prematureEof) ∧
      (src.request_open = true → src.responses = [] →
        src.recv_raw_data n = .error .prematureEof)) := by
  constructor
  · intro src n
    constructor
    · intro h
      unfold BufferSource.recv_raw_data
      rw [if_pos h]
      refine ⟨rfl, ?_⟩
      rw [List.length_take, List.length_drop]
      omega
    · intro h
      unfold BufferSource.recv_raw_data
      rw [if_neg (by omega)]
  · intro src n
    constructor
    · intro h
      simp [ChannelSource.recv_raw_data, h]
    · intro h1 h2
      simp [ChannelSource.recv_raw_data, h1, h2]

theorem claim_C6_recv_raw_data_witness :
    ((BufferSource.mk [5, 6, 7] 1).recv_raw_data 2 =
      .ok ((([5, 6, 7] : List Nat).drop 1).take 2, ⟨[5, 6, 7], 1 + 2⟩) ∧
    ((([5, 6, 7] : List Nat).drop 1).take 2).length = 2) ∧
    (BufferSource.mk [5, 6, 7] 1).recv_raw_data 3 = .error .prematureEof ∧
    (ChannelSource.mk false []).recv_raw_data 1 = .error .prematureEof ∧
    (ChannelSource.mk true []).recv_raw_data 1 = .error .prematureEof :=
  ⟨(claim_C6_recv_raw_data.1 ⟨[5, 6, 7], 1⟩ 2).1 (by decide),
    (claim_C6_recv_raw_data.1 ⟨[5, 6, 7], 1⟩ 3).2 (by decide),
    (claim_C6_recv_raw_data.2 ⟨false, []⟩ 1).1 rfl,
    (claim_C6_recv_raw_data.2 ⟨true, []⟩ 1).2 rfl rfl⟩

/-- C7: with `hard_eof` set, decoding a `u8` from `[1, 2]` fails with
`ExpectedEof 2` and decoding a `u8` from `[]` fails with `PrematureEof`. -/
theorem claim_C7_hard_eof :
    deserializeBuffer true (.sprim 1) [1, 2] = .error (.expectedEof 2) ∧
    deserializeBuffer true (.sprim 1) [] = .error .prematureEof := by
  constructor
  · simp [deserializeBuffer, decodeVal, BufferSource.new,
      BufferSource.recv_raw_data, BufferSource.ensure_eof, fromLeBytes]
  · simp [deserializeBuffer, decodeVal, BufferSource.new,
      BufferSource.recv_raw_data]

/-- C8: the encoder emits a tagged-sum value as the variant's 0-based
ordinal in 32-bit little-endian followed by the payload fields with no
framing; concretely `Foo { x: "xy", y: 0xABCDEF78 }` (ordinal 0) and the
unit variant `Baz` (ordinal 2) produce the claimed bytes. -/
theorem claim_C8_sum_encoding :
    (∀ (i : Nat) (fs : ValList),
      (runOps BufferSink.new (emit (Val.vvariant i fs))).buffer =
        leBytes 4 i ++ encodeList fs) ∧
    (runOps BufferSink.new (emit (Val.vvariant 0
        (.cons (.vstr [120, 121]) (.cons (.vprim 4 0xABCDEF78) .nil))))).buffer =
      [0, 0, 0, 0, 2, 0, 0, 0, 0, 0, 0, 0, 120, 121, 0x78, 0xEF, 0xCD, 0xAB] ∧
    (runOps BufferSink.new (emit (Val.vvariant 2 .nil))).buffer = [2, 0, 0, 0] := by
  refine ⟨?_, by decide, by decide⟩
  intro i fs
  rw [serialize_buffer_eq]
  rfl

/-- C9: with `hard_eof` disabled, the fill loop of `ChannelBackend::run`
does not terminate on a reader stuck at end of stream: a persistent
zero-length reader exhausts any iteration fuel on an unfilled request
(first conjunct), only the `hard_eof` flag turns that into `PrematureEof`
(second conjunct), and a reader that keeps supplying bytes lets the loop
finish (third conjunct). -/
theorem claim_C9_fill_loop :
    (∀ (idx n fuel : Nat), 0 < n →
      fillLoop false (fun _ => 0) idx n fuel = .outOfFuel) ∧
    (∀ (idx n fuel : Nat), 0 < n → 0 < fuel →
      fillLoop true (fun _ => 0) idx n fuel = .failed .prematureEof) ∧
    (∀ (idx n fuel : Nat), n ≤ fuel →
      fillLoop false (fun _ => 1) idx n fuel = .done) := by
  refine ⟨?_, ?_, ?_⟩
  · intro idx n fuel
    induction fuel generalizing idx with
    | zero =>
      intro hn
      simp only [fillLoop]
      rw [if_neg (by omega)]
    | succ f ihf =>
      intro hn
      simp only [fillLoop]
      rw [if_neg (by omega), if_neg (by simp)]
      simpa using ihf (idx + 1) hn
  · intro idx n fuel hn hf
    cases fuel with
    | zero => omega
    | succ f =>
      simp only [fillLoop]
      rw [if_neg (by omega), if_pos (by simp)]
  · intro idx n fuel
    induction fuel generalizing idx n with
    | zero =>
      intro hn
      simp only [fillLoop]
      rw [if_pos (by omega)]
    | succ f ihf =>
      intro hn
      by_cases h0 : n = 0
      · simp only [fillLoop]
        rw [if_pos h0]
      · simp only [fillLoop]
        rw [if_neg h0, if_neg (by simp)]
        exact ihf (idx + 1) (n - min 1 n) (by omega)

theorem claim_C9_fill_loop_witness :
    (0 < 1 ∧ fillLoop false (fun _ => 0) 0 1 5 = .outOfFuel) ∧
    fillLoop true (fun _ => 0) 0 1 5 = .failed .prematureEof ∧
    fillLoop false (fun _ => 1) 0 3 5 = .done :=
  ⟨⟨by decide, claim_C9_fill_loop.1 0 1 5 (by decide)⟩,
    claim_C9_fill_loop.2.1 0 1 5 (by decide) (by decide),
    claim_C9_fill_loop.2.2 0 3 5 (by decide)⟩

/-- C10: `end_var_sized` on an idle buffer sink (current routine
`Resolved 0`, no parents) is a no-op: buffer, cursor and routines are all
unchanged, for any buffer and cursor — the open-sequence count saturates at
zero instead of underflowing. -/
theorem claim_C10_end_var_idle (buf : List Nat) (cur : Nat) :
    (BufferSink.mk buf cur (.resolved 0) []).end_var_sized =
      BufferSink.mk buf cur (.resolved 0) [] :=
  pop_idle rfl

end Abcode
